import Mathlib

/-! # EventBus

A shallow embedding of `event_bus.go` (package `EventBus`): a registry that maps a
channel name to one handler and a one-shot flag, guarded by a mutex.

* Go maps are functions `String → Option α` (key absent = `none`).
* `sync.Mutex` is a `Bool` (held or free); `Lock` on a held mutex never returns.
* Every operation returns a `Run`: the bus it leaves behind, the handler
  invocations it performed, and how control left it (`ret`, `panic`, `block`).
* The part of package `reflect` the source calls (`TypeOf`, `ValueOf`, `Kind`,
  `Value.Call`) is modelled in namespace `Reflect`.
-/

namespace Reflect

/-- The kinds of `reflect.Kind` that the modelled values can have. -/
inductive Kind
  | Invalid
  | Bool
  | Int
  | String
  | Func
deriving DecidableEq, Repr

/-- The declared type of a handler parameter: `bool`, `int`, `string` or `interface{}`. -/
inductive ParamType
  | bool
  | int
  | string
  | emptyInterface
deriving DecidableEq, Repr

/-- What the body of a function value does once it has been entered: it returns,
it panics, or it calls an operation of the bus it is registered on. -/
inductive Behaviour
  | returns
  | panics
  | callsRegistry
deriving DecidableEq, Repr

/-- A Go function value: its identity, the types of its fixed parameters, the
element type of a final `...T` parameter when it is variadic, its body, and whether it
is the nil value of its function type (`var f func()`), which has a type but no body
to enter. -/
structure Func where
  id : Nat
  params : List ParamType
  variadic : Option ParamType
  body : Behaviour
  isNil : Bool
deriving DecidableEq, Repr

/-- A Go value held in an `interface{}`: the nil interface or a dynamic value. -/
inductive Value
  | nil
  | bool (b : Bool)
  | int (n : Int)
  | string (s : String)
  | func (f : Func)
deriving DecidableEq, Repr

/-- A `reflect.Type`: the dynamic type of a non-nil interface value. The signature of
a function type is carried by the function value itself. -/
inductive RType
  | bool
  | int
  | string
  | func
deriving DecidableEq, Repr

/-- A `reflect.Value`: the zero Value or a reflected dynamic value. -/
inductive RValue
  | zero
  | bool (b : Bool)
  | int (n : Int)
  | string (s : String)
  | func (f : Func)
deriving DecidableEq, Repr

/-- Go `reflect.TypeOf(i)`: the dynamic type of `i`, and nil for the nil interface. -/
def TypeOf : Value → Option RType
  | .nil => none
  | .bool _ => some .bool
  | .int _ => some .int
  | .string _ => some .string
  | .func _ => some .func

/-- Go `Type.Kind()`. -/
def RType.Kind : RType → Kind
  | .bool => .Bool
  | .int => .Int
  | .string => .String
  | .func => .Func

/-- Go `reflect.ValueOf(i)`: `ValueOf(nil)` is the zero Value. -/
def ValueOf : Value → RValue
  | .nil => .zero
  | .bool b => .bool b
  | .int n => .int n
  | .string s => .string s
  | .func f => .func f

/-- Go `Value.Kind()`: the zero Value has kind `Invalid`. -/
def RValue.Kind : RValue → Kind
  | .zero => .Invalid
  | .bool _ => .Bool
  | .int _ => .Int
  | .string _ => .String
  | .func _ => .Func

/-- Go `Value.Type()` of a Value that is not the zero Value. -/
def RValue.typ : RValue → Option RType
  | .zero => none
  | .bool _ => some .bool
  | .int _ => some .int
  | .string _ => some .string
  | .func _ => some .func

/-- Go `xt.AssignableTo(t)` for a parameter type `t`: identical types, or `t` is
`interface{}`, which every type implements. -/
def AssignableTo (xt : RType) (t : ParamType) : Bool :=
  match xt, t with
  | _, .emptyInterface => true
  | .bool, .bool => true
  | .int, .int => true
  | .string, .string => true
  | _, _ => false

/-- The type test `Value.Call` makes on one argument against one parameter type. -/
def argFits (x : RValue) (t : ParamType) : Bool :=
  match x.typ with
  | some xt => AssignableTo xt t
  | none => false

/-- The tests `Value.Call` makes before it enters the body of `f` with the arguments
`ins`: `f` is not a nil function, enough arguments, not too many unless `f` is
variadic, no zero Value, and every argument assignable to its parameter. -/
def accepts (f : Func) (ins : List RValue) : Bool :=
  !f.isNil
    && decide (f.params.length ≤ ins.length)
    && (f.variadic.isSome || decide (ins.length ≤ f.params.length))
    && ins.all (fun x => x.Kind != Kind.Invalid)
    && ((ins.take f.params.length).zip f.params).all (fun p => argFits p.1 p.2)
    && (match f.variadic with
        | some elem => (ins.drop f.params.length).all (fun x => argFits x elem)
        | none => true)

/-- A Go value `v` may be passed for a parameter of type `t` in an ordinary call:
its dynamic type is assignable to `t`, and nil may be passed for `interface{}`. -/
def assignable (v : Value) (t : ParamType) : Bool :=
  match TypeOf v with
  | some xt => AssignableTo xt t
  | none => t == ParamType.emptyInterface

/-- The argument list `args` matches the signature of `f`: the ordinary call
`f(args...)` is well typed. -/
def matchesSignature (f : Func) (args : List Value) : Bool :=
  decide (f.params.length ≤ args.length)
    && (f.variadic.isSome || decide (args.length ≤ f.params.length))
    && ((args.take f.params.length).zip f.params).all (fun p => assignable p.1 p.2)
    && (match f.variadic with
        | some elem => (args.drop f.params.length).all (fun v => assignable v elem)
        | none => true)

/-- One entry of a function body: the function entered and the arguments it received. -/
structure Invocation where
  fn : Func
  args : List RValue
deriving DecidableEq, Repr

/-- Go `v.Call(in)`: panics unless `v` is a function, panics on a nil function (call of
nil function), on too few or too many arguments, on a zero Value argument and on an
argument that is not assignable to its parameter, all before any body is entered;
otherwise the function body is entered with `in`. The result is the invocations made
and how the call ended. -/
def Call (v : RValue) (ins : List RValue) : List Invocation × Behaviour :=
  match v with
  | .func f =>
    let n := f.params.length
    if f.isNil then ([], .panics)
    else if ins.length < n then ([], .panics)
    else if f.variadic.isNone && decide (ins.length > n) then ([], .panics)
    else if ins.any (fun x => x.Kind == Kind.Invalid) then ([], .panics)
    else if !((ins.take n).zip f.params).all (fun p => argFits p.1 p.2) then ([], .panics)
    else if !(match f.variadic with
              | some elem => (ins.drop n).all (fun x => argFits x elem)
              | none => true) then ([], .panics)
    else ([⟨f, ins⟩], f.body)
  | _ => ([], .panics)

end Reflect

open Reflect

/-- A Go `map[string]α`. -/
abbrev GoMap (α : Type) := String → Option α

/-- The statement `m[k] = v`. -/
def GoMap.set {α : Type} (m : GoMap α) (k : String) (v : α) : GoMap α :=
  fun j => if j = k then some v else m j

/-- The statement `delete(m, k)`. -/
def GoMap.delete {α : Type} (m : GoMap α) (k : String) : GoMap α :=
  fun j => if j = k then none else m j

/-- The registry: `handlers`, `flagOnce`, the mutex `lock` (`true` when held) and the
counter of the wait group `wg`. -/
structure EventBus where
  handlers : GoMap RValue
  flagOnce : GoMap Bool
  lock : Bool
  wg : Int

/-- The two errors the operations return: the one `Subscribe` and `SubscribeOnce` build
from the kind of a value that is not a function, and the one `Unsubscribe` builds from
the channel name. -/
inductive Error
  | notFunc (k : Kind)
  | noTopic (channel : String)
deriving DecidableEq, Repr

/-- How control leaves an operation: it returns a value, a panic propagates to the
caller, or it never returns. -/
inductive Exit (α : Type)
  | ret (v : α)
  | panic
  | block
deriving DecidableEq, Repr

/-- The outcome of an operation: the bus left behind, the handler invocations made,
and the exit. -/
structure Run (α : Type) where
  bus : EventBus
  calls : List Invocation
  exit : Exit α

namespace EventBus

/-- Go `New()`: empty maps, a free mutex and an empty wait group. -/
def New : EventBus :=
  { handlers := fun _ => none, flagOnce := fun _ => none, lock := false, wg := 0 }

/-- Go `bus.lock.Lock()`: `none` when the mutex is held (the caller blocks). -/
def Lock (bus : EventBus) : Option EventBus :=
  if bus.lock then none else some { bus with lock := true }

/-- Go `bus.lock.Unlock()`. -/
def Unlock (bus : EventBus) : EventBus :=
  { bus with lock := false }

/-- Go `Subscribe(channel, fn)`. Calling `Kind()` on the nil `reflect.Type` that
`reflect.TypeOf` returns for the nil interface is a nil dereference: a panic, raised
while the mutex is held. -/
def Subscribe (bus : EventBus) (channel : String) (fn : Value) : Run (Option Error) :=
  match bus.Lock with
  | none => ⟨bus, [], .block⟩
  | some b =>
    match TypeOf fn with
    | none => ⟨b, [], .panic⟩
    | some t =>
      if !(t.Kind == Kind.Func) then
        ⟨b.Unlock, [], .ret (some (.notFunc t.Kind))⟩
      else
        let v := ValueOf fn
        let b1 := { b with handlers := b.handlers.set channel v }
        let b2 := { b1 with flagOnce := b1.flagOnce.set channel false }
        ⟨b2.Unlock, [], .ret none⟩

/-- Go `SubscribeOnce(channel, fn)`. -/
def SubscribeOnce (bus : EventBus) (channel : String) (fn : Value) : Run (Option Error) :=
  match bus.Lock with
  | none => ⟨bus, [], .block⟩
  | some b =>
    match TypeOf fn with
    | none => ⟨b, [], .panic⟩
    | some t =>
      if !(t.Kind == Kind.Func) then
        ⟨b.Unlock, [], .ret (some (.notFunc t.Kind))⟩
      else
        let v := ValueOf fn
        let b1 := { b with handlers := b.handlers.set channel v }
        let b2 := { b1 with flagOnce := b1.flagOnce.set channel true }
        ⟨b2.Unlock, [], .ret none⟩

/-- Go `Unsubscribe(channel)`. -/
def Unsubscribe (bus : EventBus) (channel : String) : Run (Option Error) :=
  match bus.Lock with
  | none => ⟨bus, [], .block⟩
  | some b =>
    match b.handlers channel with
    | some _ =>
      let b1 := { b with handlers := b.handlers.delete channel }
      ⟨b1.Unlock, [], .ret none⟩
    | none => ⟨b.Unlock, [], .ret (some (.noTopic channel))⟩

/-- The loop of `Publish` that builds `args_`: start from the empty slice and append
`reflect.ValueOf(arg)` for each `arg`, in order. -/
def reflectArgs (args : List Value) : List RValue :=
  args.foldl (fun args_ arg => args_ ++ [ValueOf arg]) []

/-- Go `Publish(channel, args...)`. There is no `defer`: when `handler.Call` panics the
removal and the `Unlock` after it are not reached. A body that calls the registry
starts with `bus.lock.Lock()` on the mutex this `Publish` holds, so it never returns. -/
def Publish (bus : EventBus) (channel : String) (args : List Value) : Run Unit :=
  match bus.Lock with
  | none => ⟨bus, [], .block⟩
  | some b =>
    match b.handlers channel with
    | some handler =>
      let removeAfterExec := (b.flagOnce channel).getD false
      let args_ := reflectArgs args
      match Call handler args_ with
      | (calls, .returns) =>
        if removeAfterExec then
          let b1 := { b with handlers := b.handlers.delete channel }
          let b2 := { b1 with flagOnce := b1.flagOnce.set channel false }
          ⟨b2.Unlock, calls, .ret ()⟩
        else
          ⟨b.Unlock, calls, .ret ()⟩
      | (calls, .panics) => ⟨b, calls, .panic⟩
      | (calls, .callsRegistry) => ⟨b, calls, .block⟩
    | none => ⟨b.Unlock, [], .ret ()⟩

end EventBus

/-- The loop of a caller that makes `n` consecutive calls `bus.Publish(channel, args...)`
and stops at the first `Publish` that does not return. -/
def PublishTimes (bus : EventBus) (channel : String) (args : List Value) : Nat → Run Unit
  | 0 => ⟨bus, [], .ret ()⟩
  | n + 1 =>
    let r := PublishTimes bus channel args n
    match r.exit with
    | .ret _ =>
      let r1 := r.bus.Publish channel args
      ⟨r1.bus, r.calls ++ r1.calls, r1.exit⟩
    | _ => r

/-- A call of one of the four synchronous operations. -/
inductive Op
  | subscribe (channel : String) (fn : Value)
  | subscribeOnce (channel : String) (fn : Value)
  | unsubscribe (channel : String)
  | publish (channel : String) (args : List Value)

/-- The operation registers a handler on `channel`. -/
def Op.subscribesTo (channel : String) : Op → Bool
  | .subscribe c _ => c == channel
  | .subscribeOnce c _ => c == channel
  | .unsubscribe _ => false
  | .publish _ _ => false

/-- One call made by a sequential caller: the bus it leaves when it returns, and
`none` when it does not return to the caller (it panics or blocks). -/
def Op.step (bus : EventBus) : Op → Option EventBus
  | .subscribe c fn =>
    match (bus.Subscribe c fn).exit with
    | .ret _ => some (bus.Subscribe c fn).bus
    | _ => none
  | .subscribeOnce c fn =>
    match (bus.SubscribeOnce c fn).exit with
    | .ret _ => some (bus.SubscribeOnce c fn).bus
    | _ => none
  | .unsubscribe c =>
    match (bus.Unsubscribe c).exit with
    | .ret _ => some (bus.Unsubscribe c).bus
    | _ => none
  | .publish c args =>
    match (bus.Publish c args).exit with
    | .ret _ => some (bus.Publish c args).bus
    | _ => none

/-- A finite sequence of calls, each made after the previous one returned. -/
def runOps (bus : EventBus) : List Op → Option EventBus
  | [] => some bus
  | op :: ops =>
    match op.step bus with
    | some b => runOps b ops
    | none => none

/-- The registration that a call makes for `channel` when it returns: `some false` for a
`Subscribe` of a function value on `channel`, `some true` for a `SubscribeOnce` of one, and
`none` for every other call (a value that is not a function is rejected). -/
def Op.registers (channel : String) : Op → Option Bool
  | .subscribe c (.func _) => if c = channel then some false else none
  | .subscribeOnce c (.func _) => if c = channel then some true else none
  | _ => none

/-- The most recent registration for `channel` in a sequence of calls, starting from
`last`: `some true` when it was a `SubscribeOnce`, `some false` when it was a `Subscribe`. -/
def lastRegistrationFrom (channel : String) (last : Option Bool) (ops : List Op) :
    Option Bool :=
  ops.foldl (fun acc op =>
    match op.registers channel with
    | some once => some once
    | none => acc) last

/-- The most recent registration for `channel` in a sequence of calls made on a new bus. -/
def lastRegistration (channel : String) (ops : List Op) : Option Bool :=
  lastRegistrationFrom channel none ops

/-- A goroutine started by `PublishAsync` that has not finished: the channel and the
arguments of the `Publish` it runs. -/
structure Goroutine where
  channel : String
  args : List Value

/-- The bus with the goroutines around it: the goroutines started by `PublishAsync` that
have not finished, and the handler invocations those goroutines have made so far. -/
structure World where
  bus : EventBus
  tasks : List Goroutine
  calls : List Invocation

namespace EventBus

/-- Go `PublishAsync(channel, args...)`: `bus.wg.Add(1)`, then the `go` statement starts
the goroutine. -/
def PublishAsync (w : World) (channel : String) (args : List Value) : World :=
  let b := { w.bus with wg := w.bus.wg + 1 }
  { w with bus := b, tasks := w.tasks ++ [⟨channel, args⟩] }

/-- The goroutine of `PublishAsync`, run to its end: `bus.Publish(channel, args...)` and
then the deferred `bus.wg.Done()`, which runs when `Publish` returns and also when it
panics. `Publish` holds the mutex from its first to its last statement, so it is one
step for the other goroutines. The result is `none` when there is no `i`-th goroutine
or its `Publish` never returns. -/
def asyncTask (w : World) (i : Nat) : Option World :=
  match w.tasks[i]? with
  | none => none
  | some t =>
    let r := w.bus.Publish t.channel t.args
    match r.exit with
    | .block => none
    | _ =>
      some { bus := { r.bus with wg := r.bus.wg - 1 },
             tasks := w.tasks.eraseIdx i,
             calls := w.calls ++ r.calls }

/-- Go `WaitAsync()`: `bus.wg.Wait()` returns once the counter is zero, and not before. -/
def WaitAsync (w : World) : Option World :=
  if w.bus.wg = 0 then some w else none

end EventBus

/-- What happens next in a world: the caller calls `PublishAsync`, the caller makes a
synchronous call that returns, or the scheduler runs the `i`-th outstanding goroutine
to its end. -/
inductive Event
  | publishAsync (channel : String) (args : List Value)
  | call (op : Op)
  | finish (i : Nat)

/-- One event; `none` when the event cannot happen. -/
def World.step (w : World) : Event → Option World
  | .publishAsync c args => some (EventBus.PublishAsync w c args)
  | .call op =>
    match op.step w.bus with
    | some b => some { w with bus := b }
    | none => none
  | .finish i => EventBus.asyncTask w i

/-- A finite sequence of events. -/
def World.run (w : World) : List Event → Option World
  | [] => some w
  | e :: es =>
    match w.step e with
    | some w1 => World.run w1 es
    | none => none

/-- The number of `PublishAsync` calls in a sequence of events. -/
def countAsync : List Event → Nat
  | [] => 0
  | .publishAsync _ _ :: es => countAsync es + 1
  | _ :: es => countAsync es

/-- The event is a `PublishAsync` on channel `c` with arguments that `Value.Call` accepts
for `h`, or the end of a goroutine; it is not a synchronous call. -/
def Event.asyncOn (c : String) (h : Func) : Event → Bool
  | .publishAsync d args => d == c && accepts h (args.map ValueOf)
  | .finish _ => true
  | .call _ => false

/-- A world in which only asynchronous publishes to a persistent handler `h` on channel `c`
are under way: the mutex is free, `c` holds `h` with a false flag, the counter of the
wait group is the number of outstanding goroutines, each of them publishes to `c` with
arguments that `h` accepts, and every invocation made so far entered `h`. -/
def World.steady (c : String) (h : Func) (w : World) : Prop :=
  w.bus.lock = false ∧ w.bus.handlers c = some (.func h) ∧ w.bus.flagOnce c = some false
    ∧ w.bus.wg = (w.tasks.length : Int)
    ∧ (∀ t ∈ w.tasks, t.channel = c ∧ accepts h (t.args.map ValueOf) = true)
    ∧ (∀ i ∈ w.calls, i.fn = h)

/-! ## Lemmas on the model -/

namespace Reflect

theorem Call_of_accepts (f : Func) (ins : List RValue) (h : accepts f ins = true) :
    Call (.func f) ins = ([⟨f, ins⟩], f.body) := by
  simp only [accepts, Bool.and_eq_true, decide_eq_true_eq, Bool.or_eq_true,
    Bool.not_eq_true'] at h
  obtain ⟨⟨⟨⟨⟨h0, h1⟩, h2⟩, h3⟩, h4⟩, h5⟩ := h
  have h3n : (ins.any fun x => x.Kind == Kind.Invalid) = false := by
    simp only [List.any_eq_false, beq_iff_eq]
    intro x hx
    have := (List.all_eq_true.mp h3) x hx
    simpa using this
  simp only [Call]
  rw [if_neg (by simp [h0])]
  rw [if_neg (by omega)]
  rw [if_neg (by
    rcases h2 with h2 | h2
    · cases hv : f.variadic <;> simp_all
    · simp; intro _; omega)]
  rw [if_neg (by simp [h3n])]
  rw [if_neg (by simp [h4])]
  rw [if_neg (by simp [h5])]

theorem Call_of_not_accepts (f : Func) (ins : List RValue) (h : accepts f ins = false) :
    Call (.func f) ins = ([], .panics) := by
  simp only [Call]
  split_ifs with h0 h1 h2 h3 h4 h5 <;> try rfl
  exfalso
  have : accepts f ins = true := by
    simp only [accepts, Bool.and_eq_true, decide_eq_true_eq, Bool.or_eq_true,
      Bool.not_eq_true']
    refine ⟨⟨⟨⟨⟨by simpa using h0, by omega⟩, ?_⟩, ?_⟩, ?_⟩, ?_⟩
    · cases hv : f.variadic
      · right; simp [hv] at h2; omega
      · left; rfl
    · simp only [List.all_eq_true, bne_iff_ne, ne_eq]
      intro x hx hk
      apply h3
      simp only [List.any_eq_true, beq_iff_eq]
      exact ⟨x, hx, hk⟩
    · simpa using h4
    · simpa using h5
  rw [this] at h
  exact Bool.noConfusion h

end Reflect

namespace Reflect

theorem ValueOf_Kind_ne_invalid (v : Value) (h : v ≠ Value.nil) :
    ((ValueOf v).Kind != Kind.Invalid) = true := by
  cases v <;> simp_all [ValueOf, RValue.Kind]

theorem argFits_ValueOf (v : Value) (t : ParamType) (h : v ≠ Value.nil) :
    argFits (ValueOf v) t = assignable v t := by
  cases v <;> simp_all [ValueOf, argFits, assignable, RValue.typ, TypeOf]

theorem all_argFits_zip (args : List Value) (ps : List ParamType)
    (hnil : ∀ v ∈ args, v ≠ Value.nil) :
    ((args.map ValueOf).zip ps).all (fun p => argFits p.1 p.2)
      = (args.zip ps).all (fun p => assignable p.1 p.2) := by
  induction args generalizing ps with
  | nil => simp
  | cons a as ih =>
    cases ps with
    | nil => simp
    | cons p ps =>
      simp only [List.map_cons, List.zip_cons_cons, List.all_cons]
      rw [argFits_ValueOf a p (hnil a (List.mem_cons_self _ _)),
        ih ps (fun v hv => hnil v (List.mem_cons_of_mem _ hv))]

theorem all_argFits_map (args : List Value) (t : ParamType)
    (hnil : ∀ v ∈ args, v ≠ Value.nil) :
    (args.map ValueOf).all (fun x => argFits x t) = args.all (fun v => assignable v t) := by
  induction args with
  | nil => simp
  | cons a as ih =>
    simp only [List.map_cons, List.all_cons]
    rw [argFits_ValueOf a t (hnil a (List.mem_cons_self _ _)),
      ih (fun v hv => hnil v (List.mem_cons_of_mem _ hv))]

/-- For a function that is not nil and an argument list without the nil interface value,
the tests of `Value.Call` are the typing of an ordinary call. -/
theorem accepts_of_matchesSignature (f : Func) (args : List Value)
    (hf : f.isNil = false) (hnil : ∀ v ∈ args, v ≠ Value.nil) :
    accepts f (args.map ValueOf) = matchesSignature f args := by
  have h3 : (args.map ValueOf).all (fun x => x.Kind != Kind.Invalid) = true := by
    simp only [List.all_eq_true, List.mem_map]
    rintro x ⟨v, hv, rfl⟩
    exact ValueOf_Kind_ne_invalid v (hnil v hv)
  have h4 := all_argFits_zip (args.take f.params.length) f.params
    (fun v hv => hnil v (List.mem_of_mem_take hv))
  have h5 : ∀ elem, ((args.map ValueOf).drop f.params.length).all (fun x => argFits x elem)
      = (args.drop f.params.length).all (fun v => assignable v elem) := by
    intro elem
    rw [← List.map_drop]
    exact all_argFits_map _ elem (fun v hv => hnil v (List.mem_of_mem_drop hv))
  simp only [accepts, matchesSignature, List.length_map, h3, Bool.and_true, ← List.map_take, h4,
    hf, Bool.not_false, Bool.true_and]
  cases hv : f.variadic with
  | none => rfl
  | some elem => simp only [h5 elem]

/-- A nil function passes the tests of `Value.Call` with no argument list. -/
theorem not_accepts_of_isNil (f : Func) (ins : List RValue) (hf : f.isNil = true) :
    accepts f ins = false := by
  simp [accepts, hf]

/-- An argument list that contains the nil interface value never passes the tests of
`Value.Call`. -/
theorem not_accepts_of_nil (f : Func) (args : List Value) (hnil : Value.nil ∈ args) :
    accepts f (args.map ValueOf) = false := by
  have h3 : (args.map ValueOf).all (fun x => x.Kind != Kind.Invalid) = false := by
    rw [List.all_eq_false]
    exact ⟨ValueOf Value.nil, List.mem_map_of_mem _ hnil, by simp [ValueOf, RValue.Kind]⟩
  simp [accepts, h3]

end Reflect

namespace EventBus

theorem reflectArgs_eq_map (args : List Value) : reflectArgs args = args.map ValueOf := by
  have h : ∀ (acc : List RValue),
      args.foldl (fun args_ arg => args_ ++ [ValueOf arg]) acc = acc ++ args.map ValueOf := by
    induction args with
    | nil => intro acc; simp
    | cons a as ih => intro acc; simp [List.foldl_cons, ih]
  simpa [reflectArgs] using h []

theorem Lock_of_free (bus : EventBus) (h : bus.lock = false) :
    bus.Lock = some { bus with lock := true } := by
  simp [Lock, h]

theorem Lock_of_held (bus : EventBus) (h : bus.lock = true) : bus.Lock = none := by
  simp [Lock, h]

theorem Unlock_Lock (bus : EventBus) (h : bus.lock = false) :
    ({ bus with lock := true } : EventBus).Unlock = bus := by
  cases bus
  simp_all [Unlock]

theorem set_same {α : Type} (m : GoMap α) (k : String) (v : α) : m.set k v k = some v := by
  simp [GoMap.set]

theorem set_other {α : Type} (m : GoMap α) (k j : String) (v : α) (h : j ≠ k) :
    m.set k v j = m j := by
  simp [GoMap.set, h]

theorem delete_same {α : Type} (m : GoMap α) (k : String) : m.delete k k = none := by
  simp [GoMap.delete]

theorem delete_other {α : Type} (m : GoMap α) (k j : String) (h : j ≠ k) :
    m.delete k j = m j := by
  simp [GoMap.delete, h]

/-- Operation `Subscribe` with a function value on a free bus. -/
theorem Subscribe_func (bus : EventBus) (c : String) (f : Func) (h : bus.lock = false) :
    bus.Subscribe c (.func f)
      = ⟨{ bus with handlers := bus.handlers.set c (.func f),
                    flagOnce := bus.flagOnce.set c false }, [], .ret none⟩ := by
  cases bus
  simp_all [Subscribe, Lock, Unlock, TypeOf, RType.Kind, ValueOf]

/-- Operation `SubscribeOnce` with a function value on a free bus. -/
theorem SubscribeOnce_func (bus : EventBus) (c : String) (f : Func) (h : bus.lock = false) :
    bus.SubscribeOnce c (.func f)
      = ⟨{ bus with handlers := bus.handlers.set c (.func f),
                    flagOnce := bus.flagOnce.set c true }, [], .ret none⟩ := by
  cases bus
  simp_all [SubscribeOnce, Lock, Unlock, TypeOf, RType.Kind, ValueOf]

/-- Operation `Unsubscribe` of a channel without an entry, on a free bus. -/
theorem Unsubscribe_absent (bus : EventBus) (c : String) (h : bus.lock = false)
    (hc : bus.handlers c = none) :
    bus.Unsubscribe c = ⟨bus, [], .ret (some (.noTopic c))⟩ := by
  cases bus
  simp_all [Unsubscribe, Lock, Unlock]

/-- Operation `Unsubscribe` of a channel with an entry, on a free bus. -/
theorem Unsubscribe_present (bus : EventBus) (c : String) (v : RValue) (h : bus.lock = false)
    (hc : bus.handlers c = some v) :
    bus.Unsubscribe c = ⟨{ bus with handlers := bus.handlers.delete c }, [], .ret none⟩ := by
  cases bus
  simp_all [Unsubscribe, Lock, Unlock]

/-- Operation `Publish` on a channel without an entry, on a free bus. -/
theorem Publish_absent (bus : EventBus) (c : String) (args : List Value)
    (h : bus.lock = false) (hc : bus.handlers c = none) :
    bus.Publish c args = ⟨bus, [], .ret ()⟩ := by
  cases bus
  simp_all [Publish, Lock, Unlock]

/-- Operation `Publish` to a persistent entry whose call returns, on a free bus. -/
theorem Publish_persistent (bus : EventBus) (c : String) (f : Func) (args : List Value)
    (h : bus.lock = false) (hc : bus.handlers c = some (.func f))
    (hflag : bus.flagOnce c = some false) (hbody : f.body = .returns)
    (hacc : accepts f (args.map ValueOf) = true) :
    bus.Publish c args = ⟨bus, [⟨f, args.map ValueOf⟩], .ret ()⟩ := by
  have hcall := Call_of_accepts f (args.map ValueOf) hacc
  cases bus
  simp_all [Publish, Lock, Unlock, reflectArgs_eq_map]

/-- Operation `Publish` to a one-shot entry whose call returns, on a free bus. -/
theorem Publish_oneShot (bus : EventBus) (c : String) (f : Func) (args : List Value)
    (h : bus.lock = false) (hc : bus.handlers c = some (.func f))
    (hflag : bus.flagOnce c = some true) (hbody : f.body = .returns)
    (hacc : accepts f (args.map ValueOf) = true) :
    bus.Publish c args
      = ⟨{ bus with handlers := bus.handlers.delete c, flagOnce := bus.flagOnce.set c false },
          [⟨f, args.map ValueOf⟩], .ret ()⟩ := by
  have hcall := Call_of_accepts f (args.map ValueOf) hacc
  cases bus
  simp_all [Publish, Lock, Unlock, reflectArgs_eq_map]

/-- The invocations of a `Publish` to a channel that holds a function: the function is
entered once with the reflected arguments when `Value.Call` accepts them, whatever its
body does afterwards, and not at all otherwise. -/
theorem Publish_calls (bus : EventBus) (c : String) (f : Func) (args : List Value)
    (h : bus.lock = false) (hc : bus.handlers c = some (.func f)) :
    (bus.Publish c args).calls
      = if accepts f (args.map ValueOf) then [⟨f, args.map ValueOf⟩] else [] := by
  cases hacc : accepts f (args.map ValueOf)
  · have hcall := Call_of_not_accepts f (args.map ValueOf) hacc
    cases bus
    simp_all [Publish, Lock, Unlock, reflectArgs_eq_map]
  · have hcall := Call_of_accepts f (args.map ValueOf) hacc
    cases bus
    simp only [Publish, Lock, Unlock, reflectArgs_eq_map, hcall]
    cases hb : f.body <;> simp_all
    split <;> rfl

end EventBus

namespace EventBus

/-- Operations `Subscribe` and `SubscribeOnce` with the nil interface value on a free bus: the
panic leaves the maps alone and the mutex held. -/
theorem Subscribe_nil (bus : EventBus) (c : String) (h : bus.lock = false) :
    bus.Subscribe c .nil = ⟨{ bus with lock := true }, [], .panic⟩
    ∧ bus.SubscribeOnce c .nil = ⟨{ bus with lock := true }, [], .panic⟩ := by
  cases bus
  simp_all [Subscribe, SubscribeOnce, Lock, TypeOf]

/-- Operations `Subscribe` and `SubscribeOnce` with a value that is neither nil nor a function, on a
free bus: the error carries the kind of the value and the bus is returned as it was. -/
theorem Subscribe_non_func (bus : EventBus) (c : String) (fn : Value)
    (h : bus.lock = false) (hnil : fn ≠ Value.nil) (hfn : ∀ f, fn ≠ Value.func f) :
    ∃ t, TypeOf fn = some t ∧ t.Kind ≠ Kind.Func
      ∧ bus.Subscribe c fn = ⟨bus, [], .ret (some (.notFunc t.Kind))⟩
      ∧ bus.SubscribeOnce c fn = ⟨bus, [], .ret (some (.notFunc t.Kind))⟩ := by
  cases bus
  cases fn with
  | nil => exact absurd rfl hnil
  | func f => exact absurd rfl (hfn f)
  | bool b => exact ⟨.bool, by simp_all [Subscribe, SubscribeOnce, Lock, Unlock, TypeOf, RType.Kind]⟩
  | int n => exact ⟨.int, by simp_all [Subscribe, SubscribeOnce, Lock, Unlock, TypeOf, RType.Kind]⟩
  | string s =>
    exact ⟨.string, by simp_all [Subscribe, SubscribeOnce, Lock, Unlock, TypeOf, RType.Kind]⟩

/-- Every operation blocks on a bus whose mutex is held, and leaves it as it is. -/
theorem blocked_of_held (bus : EventBus) (c : String) (fn : Value) (args : List Value)
    (h : bus.lock = true) :
    bus.Subscribe c fn = ⟨bus, [], .block⟩ ∧ bus.SubscribeOnce c fn = ⟨bus, [], .block⟩
    ∧ bus.Unsubscribe c = ⟨bus, [], .block⟩ ∧ bus.Publish c args = ⟨bus, [], .block⟩ := by
  simp [Subscribe, SubscribeOnce, Unsubscribe, Publish, Lock, h]

/-- A `Publish` that returns, on a free bus, leaves the mutex free. -/
theorem Publish_ret_lock (bus : EventBus) (c : String) (args : List Value)
    (h : bus.lock = false) (hret : (bus.Publish c args).exit = .ret ()) :
    (bus.Publish c args).bus.lock = false := by
  obtain ⟨hs, fl, lk, wg⟩ := bus
  simp only at h
  subst h
  simp only [Publish, Lock, Unlock, Bool.false_eq_true, if_false] at hret ⊢
  cases hh : hs c with
  | none => simp
  | some v =>
    rcases hcall : Call v (reflectArgs args) with ⟨calls, beh⟩
    simp only [hh, hcall] at hret ⊢
    cases beh <;> dsimp only at hret ⊢
    · split <;> rfl
    · exact Exit.noConfusion hret
    · exact Exit.noConfusion hret

/-- Operation `Publish` never creates an entry: a channel without a handler has none afterwards. -/
theorem Publish_handlers_none (bus : EventBus) (c d : String) (args : List Value)
    (hd : bus.handlers d = none) : (bus.Publish c args).bus.handlers d = none := by
  obtain ⟨hs, fl, lk, wg⟩ := bus
  simp only at hd
  simp only [Publish, Lock, Unlock]
  cases lk with
  | true => simpa using hd
  | false =>
    simp only [Bool.false_eq_true, if_false]
    cases hh : hs c with
    | none => simpa using hd
    | some v =>
      rcases hcall : Call v (reflectArgs args) with ⟨calls, beh⟩
      simp only [hcall]
      cases beh <;> dsimp only
      · split
        · simp [GoMap.delete, hd]
        · exact hd
      · exact hd
      · exact hd

/-- Repeated `Publish` to a channel without an entry, on a free bus. -/
theorem PublishTimes_absent (bus : EventBus) (c : String) (args : List Value) (n : Nat)
    (h : bus.lock = false) (hc : bus.handlers c = none) :
    PublishTimes bus c args n = ⟨bus, [], .ret ()⟩ := by
  induction n with
  | zero => rfl
  | succ n ih => simp [PublishTimes, ih, Publish_absent bus c args h hc]

/-- Repeated `Publish` to a persistent entry whose call returns, on a free bus. -/
theorem PublishTimes_persistent (bus : EventBus) (c : String) (f : Func) (args : List Value)
    (n : Nat) (h : bus.lock = false) (hc : bus.handlers c = some (.func f))
    (hflag : bus.flagOnce c = some false) (hbody : f.body = .returns)
    (hacc : accepts f (args.map ValueOf) = true) :
    PublishTimes bus c args n
      = ⟨bus, List.replicate n ⟨f, args.map ValueOf⟩, .ret ()⟩ := by
  induction n with
  | zero => rfl
  | succ n ih =>
    simp [PublishTimes, ih, Publish_persistent bus c f args h hc hflag hbody hacc,
      List.replicate_succ']

/-- A call that returns on a free bus leaves the mutex free, and leaves a channel it does
not subscribe to without a handler when it had none. -/
theorem step_preserves (bus b : EventBus) (c : String) (op : Op) (hfree : bus.lock = false)
    (hc : bus.handlers c = none) (hop : op.subscribesTo c = false)
    (hstep : op.step bus = some b) : b.lock = false ∧ b.handlers c = none := by
  cases op with
  | subscribe d fn =>
    have hd : c ≠ d := by
      intro e
      simp [Op.subscribesTo, e] at hop
    cases fn with
    | nil => simp [Op.step, (Subscribe_nil bus d hfree).1] at hstep
    | func f =>
      simp only [Op.step, Subscribe_func bus d f hfree, Option.some.injEq] at hstep
      subst hstep
      exact ⟨hfree, by simp [GoMap.set, hd, hc]⟩
    | bool x =>
      obtain ⟨t, -, -, e, -⟩ := Subscribe_non_func bus d (.bool x) hfree (by simp) (by simp)
      simp only [Op.step, e, Option.some.injEq] at hstep
      subst hstep
      exact ⟨hfree, hc⟩
    | int x =>
      obtain ⟨t, -, -, e, -⟩ := Subscribe_non_func bus d (.int x) hfree (by simp) (by simp)
      simp only [Op.step, e, Option.some.injEq] at hstep
      subst hstep
      exact ⟨hfree, hc⟩
    | string x =>
      obtain ⟨t, -, -, e, -⟩ := Subscribe_non_func bus d (.string x) hfree (by simp) (by simp)
      simp only [Op.step, e, Option.some.injEq] at hstep
      subst hstep
      exact ⟨hfree, hc⟩
  | subscribeOnce d fn =>
    have hd : c ≠ d := by
      intro e
      simp [Op.subscribesTo, e] at hop
    cases fn with
    | nil => simp [Op.step, (Subscribe_nil bus d hfree).2] at hstep
    | func f =>
      simp only [Op.step, SubscribeOnce_func bus d f hfree, Option.some.injEq] at hstep
      subst hstep
      exact ⟨hfree, by simp [GoMap.set, hd, hc]⟩
    | bool x =>
      obtain ⟨t, -, -, -, e⟩ := Subscribe_non_func bus d (.bool x) hfree (by simp) (by simp)
      simp only [Op.step, e, Option.some.injEq] at hstep
      subst hstep
      exact ⟨hfree, hc⟩
    | int x =>
      obtain ⟨t, -, -, -, e⟩ := Subscribe_non_func bus d (.int x) hfree (by simp) (by simp)
      simp only [Op.step, e, Option.some.injEq] at hstep
      subst hstep
      exact ⟨hfree, hc⟩
    | string x =>
      obtain ⟨t, -, -, -, e⟩ := Subscribe_non_func bus d (.string x) hfree (by simp) (by simp)
      simp only [Op.step, e, Option.some.injEq] at hstep
      subst hstep
      exact ⟨hfree, hc⟩
  | unsubscribe d =>
    cases hd : bus.handlers d with
    | none =>
      simp only [Op.step, Unsubscribe_absent bus d hfree hd, Option.some.injEq] at hstep
      subst hstep
      exact ⟨hfree, hc⟩
    | some v =>
      simp only [Op.step, Unsubscribe_present bus d v hfree hd, Option.some.injEq] at hstep
      subst hstep
      exact ⟨hfree, by simp [GoMap.delete, hc]⟩
  | publish d args =>
    simp only [Op.step] at hstep
    cases he : (bus.Publish d args).exit with
    | ret u =>
      simp only [he, Option.some.injEq] at hstep
      subst hstep
      exact ⟨Publish_ret_lock bus d args hfree he, Publish_handlers_none bus d c args hc⟩
    | panic => simp [he] at hstep
    | block => simp [he] at hstep

/-- The invariant of `step_preserves` along a sequence of calls. -/
theorem runOps_preserves (ops : List Op) (bus b : EventBus) (c : String)
    (hfree : bus.lock = false) (hc : bus.handlers c = none)
    (hops : ∀ op ∈ ops, op.subscribesTo c = false) (hrun : runOps bus ops = some b) :
    b.lock = false ∧ b.handlers c = none := by
  induction ops generalizing bus with
  | nil =>
    simp only [runOps, Option.some.injEq] at hrun
    subst hrun
    exact ⟨hfree, hc⟩
  | cons op ops ih =>
    simp only [runOps] at hrun
    cases hs : op.step bus with
    | none => simp [hs] at hrun
    | some b1 =>
      simp only [hs] at hrun
      obtain ⟨h1, h2⟩ := step_preserves bus b1 c op hfree hc
        (hops op (List.mem_cons_self _ _)) hs
      exact ih b1 h1 h2 (fun o ho => hops o (List.mem_cons_of_mem _ ho)) hrun

end EventBus

/-! ## The contract of the registry -/

/-- C1 (one-shot semantics). On a free bus, for a function `h` whose call with `args`
is accepted and returns: `SubscribeOnce(c, h)` succeeds, the first `Publish(c, args)`
returns after invoking `h` exactly once, a second `Publish(c, args2)` invokes nothing
and leaves the bus unchanged, and `Unsubscribe(c)` after the first `Publish` returns
the missing-topic error. -/
theorem subscribeOnce_fires_exactly_once (bus : EventBus) (c : String) (h : Func)
    (args args2 : List Value) (hfree : bus.lock = false)
    (hbody : h.body = Behaviour.returns) (hacc : accepts h (args.map ValueOf) = true) :
    (bus.SubscribeOnce c (.func h)).exit = .ret none
    ∧ ((bus.SubscribeOnce c (.func h)).bus.Publish c args).calls = [⟨h, args.map ValueOf⟩]
    ∧ ((bus.SubscribeOnce c (.func h)).bus.Publish c args).exit = .ret ()
    ∧ (((bus.SubscribeOnce c (.func h)).bus.Publish c args).bus.Publish c args2).calls = []
    ∧ (((bus.SubscribeOnce c (.func h)).bus.Publish c args).bus.Publish c args2).exit
        = .ret ()
    ∧ (((bus.SubscribeOnce c (.func h)).bus.Publish c args).bus.Publish c args2).bus
        = ((bus.SubscribeOnce c (.func h)).bus.Publish c args).bus
    ∧ (((bus.SubscribeOnce c (.func h)).bus.Publish c args).bus.Unsubscribe c).exit
        = .ret (some (.noTopic c)) := by
  have h0 := EventBus.SubscribeOnce_func bus c h hfree
  have h1 := fun b hl hc hf => EventBus.Publish_oneShot b c h args hl hc hf hbody hacc
  have h2 := fun b hl hc => EventBus.Publish_absent b c args2 hl hc
  have h3 := fun b hl hc => EventBus.Unsubscribe_absent b c hl hc
  rw [h0, h1, h2, h3]
  · exact ⟨rfl, rfl, rfl, rfl, rfl, rfl, rfl⟩
  all_goals first
    | exact hfree
    | exact EventBus.set_same _ _ _
    | exact EventBus.delete_same _ _

/-- Witness of C1: a handler without parameters, subscribed once on the new bus. -/
theorem subscribeOnce_fires_exactly_once_witness :
    (EventBus.New.lock = false ∧ (Func.mk 7 [] none .returns false).body = Behaviour.returns
      ∧ accepts (Func.mk 7 [] none .returns false) (([] : List Value).map ValueOf) = true)
    ∧ ((EventBus.New.SubscribeOnce "c" (.func (Func.mk 7 [] none .returns false))).bus.Publish
        "c" []).calls = [⟨Func.mk 7 [] none .returns false, []⟩] :=
  ⟨⟨rfl, rfl, rfl⟩,
    (subscribeOnce_fires_exactly_once EventBus.New "c" (Func.mk 7 [] none .returns false) [] []
      rfl rfl rfl).2.1⟩

/-- C2 (replacement). On a free bus, after `Subscribe(c, h1)` and `Subscribe(c, h2)`,
both of which succeed, `Publish(c, args)` invokes no function other than `h2` (so
never `h1` when `h1` is another function), and invokes `h2` exactly once when
`Value.Call` accepts `args` for `h2`, that is when `h2` is not a nil function and the
arguments fit its parameters; when `h2` is a nil function it invokes nothing. -/
theorem subscribe_twice_invokes_second (bus : EventBus) (c : String) (h1 h2 : Func)
    (args : List Value) (hfree : bus.lock = false) :
    (bus.Subscribe c (.func h1)).exit = .ret none
    ∧ ((bus.Subscribe c (.func h1)).bus.Subscribe c (.func h2)).exit = .ret none
    ∧ (∀ i ∈ (((bus.Subscribe c (.func h1)).bus.Subscribe c (.func h2)).bus.Publish
          c args).calls, i.fn = h2)
    ∧ (h1 ≠ h2 → ∀ i ∈ (((bus.Subscribe c (.func h1)).bus.Subscribe c (.func h2)).bus.Publish
          c args).calls, i.fn ≠ h1)
    ∧ (accepts h2 (args.map ValueOf) = true →
        (((bus.Subscribe c (.func h1)).bus.Subscribe c (.func h2)).bus.Publish c args).calls
          = [⟨h2, args.map ValueOf⟩])
    ∧ (h2.isNil = true →
        (((bus.Subscribe c (.func h1)).bus.Subscribe c (.func h2)).bus.Publish c args).calls
          = []) := by
  have e1 := EventBus.Subscribe_func bus c h1 hfree
  have e2 := fun b hl => EventBus.Subscribe_func b c h2 hl
  have e3 := fun b hl hc => EventBus.Publish_calls b c h2 args hl hc
  rw [e1, e2, e3]
  rotate_left
  · exact hfree
  · exact EventBus.set_same _ _ _
  · exact hfree
  refine ⟨rfl, rfl, ?_, ?_, ?_, ?_⟩
  · intro i hi
    split at hi
    · simp only [List.mem_singleton] at hi
      rw [hi]
    · simp at hi
  · intro hne i hi
    split at hi
    · simp only [List.mem_singleton] at hi
      rw [hi]
      exact fun e => hne e.symm
    · simp at hi
  · intro hacc
    rw [if_pos hacc]
  · intro hnilf
    rw [not_accepts_of_isNil h2 (args.map ValueOf) hnilf]
    rfl

/-- Witness of C2: two handlers of one `int` parameter on the new bus, published to
with the argument `1`; and a nil function subscribed second, which is not invoked. -/
theorem subscribe_twice_invokes_second_witness :
    (EventBus.New.lock = false
      ∧ accepts (Func.mk 2 [.int] none .panics false) ([Value.int 1].map ValueOf) = true)
    ∧ (((EventBus.New.Subscribe "c" (.func (Func.mk 1 [.int] none .returns false))).bus.Subscribe
        "c" (.func (Func.mk 2 [.int] none .panics false))).bus.Publish "c" [.int 1]).calls
        = [⟨Func.mk 2 [.int] none .panics false, [.int 1]⟩]
    ∧ (((EventBus.New.Subscribe "c" (.func (Func.mk 1 [] none .returns false))).bus.Subscribe
        "c" (.func (Func.mk 3 [] none .returns true))).bus.Publish "c" []).calls = [] :=
  ⟨⟨rfl, rfl⟩,
    (subscribe_twice_invokes_second EventBus.New "c" (Func.mk 1 [.int] none .returns false)
      (Func.mk 2 [.int] none .panics false) [.int 1] rfl).2.2.2.2.1 rfl,
    (subscribe_twice_invokes_second EventBus.New "c" (Func.mk 1 [] none .returns false)
      (Func.mk 3 [] none .returns true) [] rfl).2.2.2.2.2 rfl⟩

/-- C3 (`Unsubscribe`). On a free bus `Unsubscribe(c)` returns, and it returns no error
exactly when `handlers` has an entry for `c`. When it succeeds the entry is gone and an
immediately repeated `Unsubscribe(c)` returns the missing-topic error; when it fails
the error is the missing-topic error and the bus is unchanged. -/
theorem unsubscribe_succeeds_iff_present (bus : EventBus) (c : String)
    (hfree : bus.lock = false) :
    ((bus.Unsubscribe c).exit = .ret none ↔ (bus.handlers c).isSome = true)
    ∧ ((bus.Unsubscribe c).exit = .ret none →
        (bus.Unsubscribe c).bus.handlers c = none
        ∧ ((bus.Unsubscribe c).bus.Unsubscribe c).exit = .ret (some (.noTopic c)))
    ∧ ((bus.Unsubscribe c).exit ≠ .ret none →
        (bus.Unsubscribe c).exit = .ret (some (.noTopic c))
        ∧ (bus.Unsubscribe c).bus = bus) := by
  cases hc : bus.handlers c with
  | none =>
    rw [EventBus.Unsubscribe_absent bus c hfree hc]
    simp
  | some v =>
    have e2 := fun b hl hd => EventBus.Unsubscribe_absent b c hl hd
    rw [EventBus.Unsubscribe_present bus c v hfree hc, e2]
    · simp [EventBus.delete_same]
    · exact hfree
    · exact EventBus.delete_same _ _

/-- Witness of C3: the new bus, on which `Unsubscribe` fails and changes nothing. -/
theorem unsubscribe_succeeds_iff_present_witness :
    EventBus.New.lock = false
    ∧ ((EventBus.New.Unsubscribe "c").exit = .ret none
        ↔ (EventBus.New.handlers "c").isSome = true) :=
  ⟨rfl, (unsubscribe_succeeds_iff_present EventBus.New "c" rfl).1⟩

/-- C4 (invalid handler rejection) evaluated at the nil interface value: `Subscribe` and
`SubscribeOnce` do not return an error, they panic, and the mutex they took stays held. -/
theorem subscribe_nil_interface_panics :
    (EventBus.New.Subscribe "c" Value.nil).exit = Exit.panic
    ∧ (EventBus.New.Subscribe "c" Value.nil).bus.lock = true
    ∧ (EventBus.New.SubscribeOnce "c" Value.nil).exit = Exit.panic
    ∧ (EventBus.New.SubscribeOnce "c" Value.nil).bus.lock = true := by
  decide

/-- C5 (atomicity of rejection) evaluated at the nil interface value: on a bus where `c`
has a handler that a `Publish` invokes, `Subscribe(c, nil)` panics and leaves the mutex
held, so the bus is not the one before the call and a later `Publish(c)` blocks
without invoking the handler. -/
theorem subscribe_nil_interface_breaks_later_publish :
    ((EventBus.New.Subscribe "c" (.func (Func.mk 1 [] none .returns false))).bus.Publish
        "c" []).calls = [⟨Func.mk 1 [] none .returns false, []⟩]
    ∧ ((EventBus.New.Subscribe "c" (.func (Func.mk 1 [] none .returns false))).bus.Subscribe
        "c" Value.nil).exit = Exit.panic
    ∧ ((EventBus.New.Subscribe "c" (.func (Func.mk 1 [] none .returns false))).bus.Subscribe
        "c" Value.nil).bus.lock = true
    ∧ ((EventBus.New.Subscribe "c" (.func (Func.mk 1 [] none .returns false))).bus.Subscribe
        "c" Value.nil).bus ≠ (EventBus.New.Subscribe "c" (.func (Func.mk 1 [] none .returns false))).bus
    ∧ (((EventBus.New.Subscribe "c" (.func (Func.mk 1 [] none .returns false))).bus.Subscribe
        "c" Value.nil).bus.Publish "c" []).calls = []
    ∧ (((EventBus.New.Subscribe "c" (.func (Func.mk 1 [] none .returns false))).bus.Subscribe
        "c" Value.nil).bus.Publish "c" []).exit = Exit.block := by
  refine ⟨by decide, by decide, by decide, ?_, by decide, by decide⟩
  intro h
  have hl := congrArg EventBus.lock h
  revert hl
  decide

/-- C6 (never-subscribed channels). In every bus reached from `New()` by a finite sequence
of `Subscribe`, `SubscribeOnce`, `Unsubscribe` and `Publish` calls, each made after the
previous one returned and none of them a `Subscribe` or `SubscribeOnce` on `c`,
`Publish(c, args)` returns without invoking a handler and leaves the bus unchanged, and
`Unsubscribe(c)` returns the missing-topic error. -/
theorem never_subscribed_channel_is_silent (ops : List Op) (bus : EventBus) (c : String)
    (args : List Value) (hrun : runOps EventBus.New ops = some bus)
    (hnever : ∀ op ∈ ops, op.subscribesTo c = false) :
    bus.Publish c args = ⟨bus, [], .ret ()⟩
    ∧ bus.Unsubscribe c = ⟨bus, [], .ret (some (.noTopic c))⟩ := by
  obtain ⟨hfree, hc⟩ := EventBus.runOps_preserves ops EventBus.New bus c rfl rfl hnever hrun
  exact ⟨EventBus.Publish_absent bus c args hfree hc, EventBus.Unsubscribe_absent bus c hfree hc⟩

/-- Witness of C6: after a one-shot subscription on `d` and a `Publish` that consumes it,
channel `c` is silent. -/
theorem never_subscribed_channel_is_silent_witness :
    (runOps EventBus.New
        [.subscribeOnce "d" (.func (Func.mk 3 [] none .returns false)), .publish "d" []]
      = some ((EventBus.New.SubscribeOnce "d" (.func (Func.mk 3 [] none .returns false))).bus.Publish
          "d" []).bus
      ∧ ∀ op ∈ [Op.subscribeOnce "d" (.func (Func.mk 3 [] none .returns false)), Op.publish "d" []],
          op.subscribesTo "c" = false)
    ∧ (((EventBus.New.SubscribeOnce "d" (.func (Func.mk 3 [] none .returns false))).bus.Publish
          "d" []).bus.Unsubscribe "c").exit = .ret (some (.noTopic "c")) :=
  ⟨⟨rfl, by decide⟩,
    congrArg Run.exit (never_subscribed_channel_is_silent
      [.subscribeOnce "d" (.func (Func.mk 3 [] none .returns false)), .publish "d" []]
      ((EventBus.New.SubscribeOnce "d" (.func (Func.mk 3 [] none .returns false))).bus.Publish
          "d" []).bus "c" [] rfl (by decide)).2⟩

/-- C7 (`Unsubscribe` after `Subscribe`). On a free bus, after `Subscribe(c, h)` the call
`Unsubscribe(c)` returns no error, and on the bus it leaves every `Publish(c, args)`,
and every run of `n` of them, returns without invoking a handler and leaves the bus
unchanged. -/
theorem unsubscribe_after_subscribe_silences (bus : EventBus) (c : String) (h : Func)
    (args : List Value) (n : Nat) (hfree : bus.lock = false) :
    ((bus.Subscribe c (.func h)).bus.Unsubscribe c).exit = .ret none
    ∧ ((bus.Subscribe c (.func h)).bus.Unsubscribe c).bus.Publish c args
        = ⟨((bus.Subscribe c (.func h)).bus.Unsubscribe c).bus, [], .ret ()⟩
    ∧ PublishTimes ((bus.Subscribe c (.func h)).bus.Unsubscribe c).bus c args n
        = ⟨((bus.Subscribe c (.func h)).bus.Unsubscribe c).bus, [], .ret ()⟩ := by
  have e1 := EventBus.Subscribe_func bus c h hfree
  have e2 := fun b hl hc => EventBus.Unsubscribe_present b c (.func h) hl hc
  have e3 := fun b hl hc => EventBus.Publish_absent b c args hl hc
  have e4 := fun b hl hc => EventBus.PublishTimes_absent b c args n hl hc
  rw [e1, e2, e3, e4]
  · exact ⟨rfl, rfl, rfl⟩
  all_goals first
    | exact hfree
    | exact EventBus.set_same _ _ _
    | exact EventBus.delete_same _ _

/-- Witness of C7: a handler that panics when called, subscribed and unsubscribed on the
new bus. -/
theorem unsubscribe_after_subscribe_silences_witness :
    EventBus.New.lock = false
    ∧ ((EventBus.New.Subscribe "c" (.func (Func.mk 4 [.string] none .panics false))).bus.Unsubscribe
        "c").exit = .ret none :=
  ⟨rfl,
    (unsubscribe_after_subscribe_silences EventBus.New "c" (Func.mk 4 [.string] none .panics false)
      [.string "x"] 2 rfl).1⟩

/-- Argument forwarding for argument lists without the nil interface value: on a free bus
where `c` holds the function `h`, which is not a nil function, if `args` matches the
signature of `h` and no argument is the nil interface, `Publish(c, args)` enters `h`
exactly once, within the call, with as many values as `args` has, the `i`-th being the
reflection of the `i`-th argument. -/
theorem publish_forwards_non_nil_arguments (bus : EventBus) (c : String) (h : Func)
    (args : List Value) (hfree : bus.lock = false)
    (hc : bus.handlers c = some (.func h)) (hfn : h.isNil = false)
    (hmatch : matchesSignature h args = true) (hnil : ∀ v ∈ args, v ≠ Value.nil) :
    ∃ ins, (bus.Publish c args).calls = [⟨h, ins⟩] ∧ ins.length = args.length
      ∧ ∀ i (hi : i < args.length), ins[i]? = some (ValueOf (args.get ⟨i, hi⟩)) := by
  refine ⟨args.map ValueOf, ?_, by simp, ?_⟩
  · rw [EventBus.Publish_calls bus c h args hfree hc,
      accepts_of_matchesSignature h args hfn hnil, hmatch]
    rfl
  · intro i hi
    simp [List.getElem?_map, List.getElem?_eq_getElem hi]

/-- C8 (argument forwarding) evaluated at a nil argument: the handler `h` takes one
`interface{}` parameter, so the argument list `[nil]` matches its signature, yet
`Publish(c, nil)` does not invoke `h`: `reflect.ValueOf(nil)` is the zero Value, on
which `Value.Call` panics, and the mutex stays held. -/
theorem publish_nil_argument_panics :
    matchesSignature (Func.mk 5 [.emptyInterface] none .returns false) [Value.nil] = true
    ∧ ((EventBus.New.Subscribe "c" (.func (Func.mk 5 [.emptyInterface] none .returns false))).bus.Publish
        "c" [Value.nil]).calls = []
    ∧ ((EventBus.New.Subscribe "c" (.func (Func.mk 5 [.emptyInterface] none .returns false))).bus.Publish
        "c" [Value.nil]).exit = Exit.panic
    ∧ ((EventBus.New.Subscribe "c" (.func (Func.mk 5 [.emptyInterface] none .returns false))).bus.Publish
        "c" [Value.nil]).bus.lock = true := by
  decide

/-- C9 (persistent entries are multi-fire). On a free bus, for a function `h` whose call
with `args` is accepted and returns, after `Subscribe(c, h)` a run of `n` consecutive
`Publish(c, args)` returns after invoking `h` exactly `n` times and leaves the entry
for `c` in place, with handler `h` and a false one-shot flag, so that `Unsubscribe(c)`
afterwards returns no error. -/
theorem subscribe_entry_is_multi_fire (bus : EventBus) (c : String) (h : Func)
    (args : List Value) (n : Nat) (hfree : bus.lock = false)
    (hbody : h.body = Behaviour.returns) (hacc : accepts h (args.map ValueOf) = true) :
    (PublishTimes (bus.Subscribe c (.func h)).bus c args n).calls
        = List.replicate n ⟨h, args.map ValueOf⟩
    ∧ (PublishTimes (bus.Subscribe c (.func h)).bus c args n).calls.length = n
    ∧ (PublishTimes (bus.Subscribe c (.func h)).bus c args n).exit = .ret ()
    ∧ (PublishTimes (bus.Subscribe c (.func h)).bus c args n).bus.handlers c
        = some (.func h)
    ∧ (PublishTimes (bus.Subscribe c (.func h)).bus c args n).bus.flagOnce c = some false
    ∧ ((PublishTimes (bus.Subscribe c (.func h)).bus c args n).bus.Unsubscribe c).exit
        = .ret none := by
  have e1 := EventBus.Subscribe_func bus c h hfree
  have e2 := fun b hl hc hf => EventBus.PublishTimes_persistent b c h args n hl hc hf hbody hacc
  have e3 := fun b hl hc => EventBus.Unsubscribe_present b c (.func h) hl hc
  rw [e1, e2, e3]
  · exact ⟨rfl, by simp, rfl, EventBus.set_same _ _ _, EventBus.set_same _ _ _, rfl⟩
  all_goals first
    | exact hfree
    | exact EventBus.set_same _ _ _

/-- Witness of C9: three publishes of `(1, "x")` to a handler of an `int` and a
`string`. -/
theorem subscribe_entry_is_multi_fire_witness :
    (EventBus.New.lock = false
      ∧ (Func.mk 6 [.int, .string] none .returns false).body = Behaviour.returns
      ∧ accepts (Func.mk 6 [.int, .string] none .returns false)
          ([Value.int 1, Value.string "x"].map ValueOf) = true)
    ∧ (PublishTimes (EventBus.New.Subscribe "c"
          (.func (Func.mk 6 [.int, .string] none .returns false))).bus "c"
          [.int 1, .string "x"] 3).calls.length = 3 :=
  ⟨⟨rfl, rfl, by decide⟩,
    (subscribe_entry_is_multi_fire EventBus.New "c" (Func.mk 6 [.int, .string] none .returns false)
      [.int 1, .string "x"] 3 rfl rfl (by decide)).2.1⟩

/-- C10 (a later registration replaces the flag). On a free bus, for a function `h2`
whose call with `args` is accepted and returns: after `SubscribeOnce(c, h1)` then
`Subscribe(c, h2)` the flag of `c` is false and two consecutive `Publish(c, args)` both
invoke `h2`; after `Subscribe(c, h1)` then `SubscribeOnce(c, h2)` the flag of `c` is
true, the first `Publish(c, args)` invokes `h2` and removes the entry, and the second
invokes nothing. -/
theorem later_registration_replaces_flag (bus : EventBus) (c : String) (h1 h2 : Func)
    (args : List Value) (hfree : bus.lock = false)
    (hbody : h2.body = Behaviour.returns) (hacc : accepts h2 (args.map ValueOf) = true) :
    (((bus.SubscribeOnce c (.func h1)).bus.Subscribe c (.func h2)).bus.flagOnce c = some false
      ∧ (((bus.SubscribeOnce c (.func h1)).bus.Subscribe c (.func h2)).bus.Publish c args).calls
          = [⟨h2, args.map ValueOf⟩]
      ∧ ((((bus.SubscribeOnce c (.func h1)).bus.Subscribe c (.func h2)).bus.Publish
            c args).bus.Publish c args).calls = [⟨h2, args.map ValueOf⟩])
    ∧ (((bus.Subscribe c (.func h1)).bus.SubscribeOnce c (.func h2)).bus.flagOnce c = some true
      ∧ (((bus.Subscribe c (.func h1)).bus.SubscribeOnce c (.func h2)).bus.Publish c args).calls
          = [⟨h2, args.map ValueOf⟩]
      ∧ (((bus.Subscribe c (.func h1)).bus.SubscribeOnce c (.func h2)).bus.Publish
            c args).bus.handlers c = none
      ∧ ((((bus.Subscribe c (.func h1)).bus.SubscribeOnce c (.func h2)).bus.Publish
            c args).bus.Publish c args).calls = []) := by
  have s1 := EventBus.Subscribe_func bus c h1 hfree
  have o1 := EventBus.SubscribeOnce_func bus c h1 hfree
  have s2 := fun b hl => EventBus.Subscribe_func b c h2 hl
  have o2 := fun b hl => EventBus.SubscribeOnce_func b c h2 hl
  have p := fun b hl hc hf => EventBus.Publish_persistent b c h2 args hl hc hf hbody hacc
  have q := fun b hl hc hf => EventBus.Publish_oneShot b c h2 args hl hc hf hbody hacc
  have a := fun b hl hc => EventBus.Publish_absent b c args hl hc
  constructor
  · rw [o1, s2, p, p]
    · exact ⟨EventBus.set_same _ _ _, rfl, rfl⟩
    all_goals first
      | exact hfree
      | exact EventBus.set_same _ _ _
  · rw [s1, o2, q, a]
    · exact ⟨EventBus.set_same _ _ _, rfl, EventBus.delete_same _ _, rfl⟩
    all_goals first
      | exact hfree
      | exact EventBus.set_same _ _ _
      | exact EventBus.delete_same _ _

/-- Witness of C10: a one-shot registration of a variadic handler over a persistent one. -/
theorem later_registration_replaces_flag_witness :
    (EventBus.New.lock = false
      ∧ (Func.mk 9 [] (some .int) .returns false).body = Behaviour.returns
      ∧ accepts (Func.mk 9 [] (some .int) .returns false) ([Value.int 1, Value.int 2].map ValueOf)
          = true)
    ∧ ((((EventBus.New.Subscribe "c" (.func (Func.mk 8 [] none .returns false))).bus.SubscribeOnce
          "c" (.func (Func.mk 9 [] (some .int) .returns false))).bus.Publish
            "c" [.int 1, .int 2]).bus.Publish "c" [.int 1, .int 2]).calls = [] :=
  ⟨⟨rfl, rfl, by decide⟩,
    (later_registration_replaces_flag EventBus.New "c" (Func.mk 8 [] none .returns false)
      (Func.mk 9 [] (some .int) .returns false) [.int 1, .int 2] rfl rfl (by decide)).2.2.2.2⟩

/-! ## Panics, the mutex and other channels -/

namespace Reflect

/-- A list whose length is not the number of parameters of a function that is not
variadic does not pass the tests of `Value.Call`. -/
theorem not_accepts_of_length (f : Func) (ins : List RValue) (hv : f.variadic = none)
    (hlen : ins.length ≠ f.params.length) : accepts f ins = false := by
  by_cases h1 : f.params.length ≤ ins.length
  · have h2 : ¬ ins.length ≤ f.params.length := by omega
    simp [accepts, hv, h2]
  · simp [accepts, h1]

end Reflect

namespace EventBus

/-- Operation `Publish` on a free bus when `Value.Call` rejects the arguments: the panic
leaves the maps alone and the mutex held, and the body of the function is not entered. -/
theorem Publish_rejected (bus : EventBus) (c : String) (f : Func) (args : List Value)
    (h : bus.lock = false) (hc : bus.handlers c = some (.func f))
    (hacc : accepts f (args.map ValueOf) = false) :
    bus.Publish c args = ⟨{ bus with lock := true }, [], .panic⟩ := by
  have hcall := Call_of_not_accepts f (args.map ValueOf) hacc
  cases bus
  simp_all [Publish, Lock, reflectArgs_eq_map]

/-- Operation `Publish` on a free bus to a nil function: `Value.Call` panics before anything
is entered, whatever the arguments, and the mutex stays held. -/
theorem Publish_nil_function (bus : EventBus) (c : String) (f : Func) (args : List Value)
    (h : bus.lock = false) (hc : bus.handlers c = some (.func f)) (hf : f.isNil = true) :
    bus.Publish c args = ⟨{ bus with lock := true }, [], .panic⟩ :=
  Publish_rejected bus c f args h hc (not_accepts_of_isNil f (args.map ValueOf) hf)

/-- Operation `Publish` on a free bus to a function whose body panics: the panic leaves
the maps alone and the mutex held. -/
theorem Publish_panics (bus : EventBus) (c : String) (f : Func) (args : List Value)
    (h : bus.lock = false) (hc : bus.handlers c = some (.func f))
    (hacc : accepts f (args.map ValueOf) = true) (hbody : f.body = .panics) :
    bus.Publish c args = ⟨{ bus with lock := true }, [⟨f, args.map ValueOf⟩], .panic⟩ := by
  have hcall := Call_of_accepts f (args.map ValueOf) hacc
  cases bus
  simp_all [Publish, Lock, reflectArgs_eq_map]

/-- Operation `Publish` on a free bus to a function whose body calls the registry: the body
runs on the bus with the mutex held, and `Publish` never returns. -/
theorem Publish_reenters (bus : EventBus) (c : String) (f : Func) (args : List Value)
    (h : bus.lock = false) (hc : bus.handlers c = some (.func f))
    (hacc : accepts f (args.map ValueOf) = true) (hbody : f.body = .callsRegistry) :
    bus.Publish c args = ⟨{ bus with lock := true }, [⟨f, args.map ValueOf⟩], .block⟩ := by
  have hcall := Call_of_accepts f (args.map ValueOf) hacc
  cases bus
  simp_all [Publish, Lock, reflectArgs_eq_map]

/-- Operations `Subscribe` and `SubscribeOnce` on channel `c` leave the entry of another
channel `d` as it was, however they end. -/
theorem Subscribe_frame (bus : EventBus) (c d : String) (fn : Value) (hcd : c ≠ d) :
    (bus.Subscribe c fn).bus.handlers d = bus.handlers d
    ∧ (bus.Subscribe c fn).bus.flagOnce d = bus.flagOnce d
    ∧ (bus.SubscribeOnce c fn).bus.handlers d = bus.handlers d
    ∧ (bus.SubscribeOnce c fn).bus.flagOnce d = bus.flagOnce d := by
  have hdc : d ≠ c := fun e => hcd e.symm
  obtain ⟨hs, fl, lk, wg⟩ := bus
  cases lk <;> cases fn <;>
    simp [Subscribe, SubscribeOnce, Lock, Unlock, TypeOf, RType.Kind, GoMap.set, hdc]

/-- Operation `Unsubscribe` on channel `c` leaves the entry of another channel `d` as it
was. -/
theorem Unsubscribe_frame (bus : EventBus) (c d : String) (hcd : c ≠ d) :
    (bus.Unsubscribe c).bus.handlers d = bus.handlers d
    ∧ (bus.Unsubscribe c).bus.flagOnce d = bus.flagOnce d := by
  have hdc : d ≠ c := fun e => hcd e.symm
  obtain ⟨hs, fl, lk, wg⟩ := bus
  cases lk
  · cases hh : hs c <;> simp [Unsubscribe, Lock, Unlock, GoMap.delete, hdc, hh]
  · simp [Unsubscribe, Lock]

/-- Operation `Publish` on channel `c` leaves the entry of another channel `d` as it was,
however it ends. -/
theorem Publish_frame (bus : EventBus) (c d : String) (args : List Value) (hcd : c ≠ d) :
    (bus.Publish c args).bus.handlers d = bus.handlers d
    ∧ (bus.Publish c args).bus.flagOnce d = bus.flagOnce d := by
  have hdc : d ≠ c := fun e => hcd e.symm
  obtain ⟨hs, fl, lk, wg⟩ := bus
  simp only [Publish, Lock, Unlock]
  cases lk with
  | true => exact ⟨rfl, rfl⟩
  | false =>
    simp only [Bool.false_eq_true, if_false]
    cases hh : hs c with
    | none => exact ⟨rfl, rfl⟩
    | some v =>
      rcases hcall : Call v (reflectArgs args) with ⟨calls, beh⟩
      simp only [hcall]
      cases beh <;> dsimp only
      · split
        · simp [GoMap.delete, GoMap.set, hdc]
        · exact ⟨rfl, rfl⟩
      · exact ⟨rfl, rfl⟩
      · exact ⟨rfl, rfl⟩

/-- Operation `Publish` on channel `c` either removes the entry of `c` or leaves its
handler and its flag as they were. -/
theorem Publish_same (bus : EventBus) (c : String) (args : List Value) :
    (bus.Publish c args).bus.handlers c = none
    ∨ ((bus.Publish c args).bus.handlers c = bus.handlers c
      ∧ (bus.Publish c args).bus.flagOnce c = bus.flagOnce c) := by
  obtain ⟨hs, fl, lk, wg⟩ := bus
  simp only [Publish, Lock, Unlock]
  cases lk with
  | true => exact Or.inr ⟨rfl, rfl⟩
  | false =>
    simp only [Bool.false_eq_true, if_false]
    cases hh : hs c with
    | none => exact Or.inl hh
    | some v =>
      rcases hcall : Call v (reflectArgs args) with ⟨calls, beh⟩
      simp only [hcall]
      cases beh <;> dsimp only
      · split
        · exact Or.inl (by simp [GoMap.delete])
        · exact Or.inr ⟨hh, rfl⟩
      · exact Or.inr ⟨hh, rfl⟩
      · exact Or.inr ⟨hh, rfl⟩

/-- None of the four operations touches the counter of the wait group. -/
theorem wg_unchanged (bus : EventBus) (c : String) (fn : Value) (args : List Value) :
    (bus.Subscribe c fn).bus.wg = bus.wg ∧ (bus.SubscribeOnce c fn).bus.wg = bus.wg
    ∧ (bus.Unsubscribe c).bus.wg = bus.wg ∧ (bus.Publish c args).bus.wg = bus.wg := by
  obtain ⟨hs, fl, lk, wg⟩ := bus
  refine ⟨?_, ?_, ?_, ?_⟩
  · cases lk <;> cases fn <;> simp [Subscribe, Lock, Unlock, TypeOf, RType.Kind]
  · cases lk <;> cases fn <;> simp [SubscribeOnce, Lock, Unlock, TypeOf, RType.Kind]
  · cases lk
    · cases hh : hs c <;> simp [Unsubscribe, Lock, Unlock, hh]
    · simp [Unsubscribe, Lock]
  · simp only [Publish, Lock, Unlock]
    cases lk with
    | true => rfl
    | false =>
      simp only [Bool.false_eq_true, if_false]
      cases hh : hs c with
      | none => rfl
      | some v =>
        rcases hcall : Call v (reflectArgs args) with ⟨calls, beh⟩
        simp only [hcall]
        cases beh <;> dsimp only
        split <;> rfl

end EventBus

/-- C11 (unconditional one-shot removal) evaluated at a handler that panics: `c` holds a
one-shot entry, `Publish(c)` enters the handler and the panic propagates, and the
entry for `c` is still in `handlers` when control leaves `Publish`. -/
theorem one_shot_entry_survives_panic :
    (EventBus.New.SubscribeOnce "c" (.func (Func.mk 1 [] none .panics false))).bus.flagOnce "c"
        = some true
    ∧ ((EventBus.New.SubscribeOnce "c" (.func (Func.mk 1 [] none .panics false))).bus.Publish
        "c" []).calls = [⟨Func.mk 1 [] none .panics false, []⟩]
    ∧ ((EventBus.New.SubscribeOnce "c" (.func (Func.mk 1 [] none .panics false))).bus.Publish
        "c" []).exit = Exit.panic
    ∧ ((EventBus.New.SubscribeOnce "c" (.func (Func.mk 1 [] none .panics false))).bus.Publish
        "c" []).bus.handlers "c" = some (.func (Func.mk 1 [] none .panics false)) := by
  decide

/-- C12 (guaranteed lock release) evaluated at a handler that panics: the panic leaves
`Publish` with the mutex held, and afterwards `Subscribe`, `SubscribeOnce`,
`Unsubscribe` and `Publish` on the same bus block instead of completing. -/
theorem panic_leaves_mutex_held :
    ((EventBus.New.Subscribe "c" (.func (Func.mk 1 [] none .panics false))).bus.Publish
        "c" []).exit = Exit.panic
    ∧ ((EventBus.New.Subscribe "c" (.func (Func.mk 1 [] none .panics false))).bus.Publish
        "c" []).bus.lock = true
    ∧ (((EventBus.New.Subscribe "c" (.func (Func.mk 1 [] none .panics false))).bus.Publish
        "c" []).bus.Subscribe "d" (.func (Func.mk 2 [] none .returns false))).exit = Exit.block
    ∧ (((EventBus.New.Subscribe "c" (.func (Func.mk 1 [] none .panics false))).bus.Publish
        "c" []).bus.SubscribeOnce "d" (.func (Func.mk 2 [] none .returns false))).exit = Exit.block
    ∧ (((EventBus.New.Subscribe "c" (.func (Func.mk 1 [] none .panics false))).bus.Publish
        "c" []).bus.Unsubscribe "c").exit = Exit.block
    ∧ (((EventBus.New.Subscribe "c" (.func (Func.mk 1 [] none .panics false))).bus.Publish
        "c" []).bus.Publish "d" []).exit = Exit.block := by
  decide

/-- C13 (signature mismatches). On a free bus `Subscribe(c, h)` and `SubscribeOnce(c, h)`
return no error for every function `h`, whatever its parameters; and when `c` holds a
function `h` that is not variadic and `args` has another length than the parameter list
of `h`, `Publish(c, args)` does not return: it panics to its caller, and the body of
`h` is not entered. -/
theorem arity_mismatch_panics_at_publish (bus : EventBus) (c : String) (h : Func)
    (args : List Value) (hfree : bus.lock = false) :
    (bus.Subscribe c (.func h)).exit = .ret none
    ∧ (bus.SubscribeOnce c (.func h)).exit = .ret none
    ∧ (bus.handlers c = some (.func h) → h.variadic = none →
        args.length ≠ h.params.length →
        (bus.Publish c args).exit = .panic ∧ (bus.Publish c args).calls = [])
    ∧ (h.variadic = none → args.length ≠ h.params.length →
        ((bus.Subscribe c (.func h)).bus.Publish c args).exit = .panic
        ∧ ((bus.Subscribe c (.func h)).bus.Publish c args).calls = []) := by
  have hrej : h.variadic = none → args.length ≠ h.params.length →
      accepts h (args.map ValueOf) = false := fun hv hlen =>
    not_accepts_of_length h (args.map ValueOf) hv (by simpa using hlen)
  refine ⟨?_, ?_, ?_, ?_⟩
  · rw [EventBus.Subscribe_func bus c h hfree]
  · rw [EventBus.SubscribeOnce_func bus c h hfree]
  · intro hc hv hlen
    rw [EventBus.Publish_rejected bus c h args hfree hc (hrej hv hlen)]
    exact ⟨rfl, rfl⟩
  · intro hv hlen
    have e := fun b hl hc => EventBus.Publish_rejected b c h args hl hc (hrej hv hlen)
    rw [EventBus.Subscribe_func bus c h hfree, e]
    · exact ⟨rfl, rfl⟩
    · exact hfree
    · exact EventBus.set_same _ _ _

/-- Witness of C13: a handler of one `int` parameter, published to without arguments. -/
theorem arity_mismatch_panics_at_publish_witness :
    EventBus.New.lock = false
    ∧ ((Func.mk 1 [.int] none .returns false).variadic = none
      ∧ ([] : List Value).length ≠ (Func.mk 1 [.int] none .returns false).params.length)
    ∧ ((EventBus.New.Subscribe "c" (.func (Func.mk 1 [.int] none .returns false))).bus.Publish
        "c" []).exit = .panic
    ∧ ((EventBus.New.Subscribe "c" (.func (Func.mk 1 [.int] none .returns false))).bus.Publish
        "c" []).calls = [] :=
  ⟨rfl, ⟨rfl, by decide⟩,
    (arity_mismatch_panics_at_publish EventBus.New "c" (Func.mk 1 [.int] none .returns false) []
      rfl).2.2.2 rfl (by decide)⟩

/-- C16 (lock held across invocation). On a free bus where `c` holds a function `h` that
accepts `args`: when the body of `h` does not return, the bus on which it was entered
has the mutex held and both maps as they were before `Publish` (the removal comes
after the call), and on that bus `Subscribe`, `SubscribeOnce`, `Unsubscribe` and
`Publish` all block without changing anything; and when the body calls the registry,
`Publish(c, args)` has entered `h` once and never returns. -/
theorem publish_holds_mutex_across_call (bus : EventBus) (c : String) (h : Func)
    (args : List Value) (hfree : bus.lock = false)
    (hc : bus.handlers c = some (.func h))
    (hacc : accepts h (args.map ValueOf) = true) :
    (h.body ≠ Behaviour.returns →
        (bus.Publish c args).calls = [⟨h, args.map ValueOf⟩]
        ∧ (bus.Publish c args).bus.lock = true
        ∧ (bus.Publish c args).bus.handlers = bus.handlers
        ∧ (bus.Publish c args).bus.flagOnce = bus.flagOnce
        ∧ ∀ (d : String) (fn : Value) (args2 : List Value),
            (bus.Publish c args).bus.Subscribe d fn = ⟨(bus.Publish c args).bus, [], .block⟩
            ∧ (bus.Publish c args).bus.SubscribeOnce d fn
                = ⟨(bus.Publish c args).bus, [], .block⟩
            ∧ (bus.Publish c args).bus.Unsubscribe d = ⟨(bus.Publish c args).bus, [], .block⟩
            ∧ (bus.Publish c args).bus.Publish d args2
                = ⟨(bus.Publish c args).bus, [], .block⟩)
    ∧ (h.body = Behaviour.callsRegistry → (bus.Publish c args).exit = .block) := by
  have key : h.body ≠ Behaviour.returns →
      (bus.Publish c args).calls = [⟨h, args.map ValueOf⟩]
      ∧ (bus.Publish c args).bus = { bus with lock := true } := by
    intro hb
    cases hbody : h.body with
    | returns => exact absurd hbody hb
    | panics =>
      rw [EventBus.Publish_panics bus c h args hfree hc hacc hbody]
      exact ⟨rfl, rfl⟩
    | callsRegistry =>
      rw [EventBus.Publish_reenters bus c h args hfree hc hacc hbody]
      exact ⟨rfl, rfl⟩
  refine ⟨?_, ?_⟩
  · intro hb
    obtain ⟨k1, k2⟩ := key hb
    have hl : (bus.Publish c args).bus.lock = true := by rw [k2]
    refine ⟨k1, hl, by rw [k2], by rw [k2], ?_⟩
    intro d fn args2
    exact EventBus.blocked_of_held _ d fn args2 hl
  · intro hbody
    rw [EventBus.Publish_reenters bus c h args hfree hc hacc hbody]

/-- Witness of C16: a handler on the new bus whose body calls the registry. -/
theorem publish_holds_mutex_across_call_witness :
    ((EventBus.New.Subscribe "c" (.func (Func.mk 1 [] none .callsRegistry false))).bus.lock = false
      ∧ (EventBus.New.Subscribe "c" (.func (Func.mk 1 [] none .callsRegistry false))).bus.handlers "c"
          = some (.func (Func.mk 1 [] none .callsRegistry false))
      ∧ accepts (Func.mk 1 [] none .callsRegistry false) (([] : List Value).map ValueOf) = true)
    ∧ ((EventBus.New.Subscribe "c" (.func (Func.mk 1 [] none .callsRegistry false))).bus.Publish
        "c" []).exit = .block :=
  ⟨⟨rfl, rfl, rfl⟩,
    (publish_holds_mutex_across_call
      (EventBus.New.Subscribe "c" (.func (Func.mk 1 [] none .callsRegistry false))).bus "c"
      (Func.mk 1 [] none .callsRegistry false) [] rfl rfl rfl).2 rfl⟩

namespace EventBus

/-- Operations `Subscribe` and `SubscribeOnce` on a free bus: with a value that is not the
nil interface they return, both with the same result, and leave the mutex free. -/
theorem Subscribe_ret_lock (bus : EventBus) (c : String) (fn : Value)
    (h : bus.lock = false) (hnil : fn ≠ Value.nil) :
    ∃ e, (bus.Subscribe c fn).exit = .ret e ∧ (bus.Subscribe c fn).bus.lock = false
      ∧ (bus.SubscribeOnce c fn).exit = .ret e ∧ (bus.SubscribeOnce c fn).bus.lock = false := by
  cases fn with
  | nil => exact absurd rfl hnil
  | func f =>
    rw [Subscribe_func bus c f h, SubscribeOnce_func bus c f h]
    exact ⟨none, rfl, h, rfl, h⟩
  | bool x =>
    obtain ⟨t, -, -, e1, e2⟩ := Subscribe_non_func bus c (.bool x) h (by simp) (by simp)
    rw [e1, e2]
    exact ⟨_, rfl, h, rfl, h⟩
  | int x =>
    obtain ⟨t, -, -, e1, e2⟩ := Subscribe_non_func bus c (.int x) h (by simp) (by simp)
    rw [e1, e2]
    exact ⟨_, rfl, h, rfl, h⟩
  | string x =>
    obtain ⟨t, -, -, e1, e2⟩ := Subscribe_non_func bus c (.string x) h (by simp) (by simp)
    rw [e1, e2]
    exact ⟨_, rfl, h, rfl, h⟩

/-- Operation `Unsubscribe` on a free bus returns and leaves the mutex free. -/
theorem Unsubscribe_ret_lock (bus : EventBus) (c : String) (h : bus.lock = false) :
    ∃ e, (bus.Unsubscribe c).exit = .ret e ∧ (bus.Unsubscribe c).bus.lock = false := by
  cases hc : bus.handlers c with
  | none =>
    rw [Unsubscribe_absent bus c h hc]
    exact ⟨_, rfl, h⟩
  | some v =>
    rw [Unsubscribe_present bus c v h hc]
    exact ⟨_, rfl, h⟩

end EventBus

/-- C18 (lock balance on normal return). On a bus whose mutex is free, each of
`Subscribe`, `SubscribeOnce`, `Unsubscribe` and `Publish` leaves the mutex free
whenever it returns; and the return paths are taken: `Subscribe` and `SubscribeOnce`
return for every value other than the nil interface (no error for a function, the
invalid-handler error otherwise), `Unsubscribe` always returns (no error or the
missing-topic error), and `Publish` returns on a channel without an entry and on a
channel whose function accepts the arguments and returns. -/
theorem mutex_free_on_return (bus : EventBus) (c : String) (fn : Value) (args : List Value)
    (hfree : bus.lock = false) :
    (∀ e, (bus.Subscribe c fn).exit = .ret e → (bus.Subscribe c fn).bus.lock = false)
    ∧ (∀ e, (bus.SubscribeOnce c fn).exit = .ret e → (bus.SubscribeOnce c fn).bus.lock = false)
    ∧ (∀ e, (bus.Unsubscribe c).exit = .ret e → (bus.Unsubscribe c).bus.lock = false)
    ∧ ((bus.Publish c args).exit = .ret () → (bus.Publish c args).bus.lock = false)
    ∧ (fn ≠ Value.nil →
        ∃ e, (bus.Subscribe c fn).exit = .ret e ∧ (bus.SubscribeOnce c fn).exit = .ret e
          ∧ (e = none ↔ ∃ f, fn = Value.func f))
    ∧ (∃ e, (bus.Unsubscribe c).exit = .ret e)
    ∧ (bus.handlers c = none → (bus.Publish c args).exit = .ret ())
    ∧ (∀ h, bus.handlers c = some (.func h) → accepts h (args.map ValueOf) = true →
        h.body = Behaviour.returns → (bus.Publish c args).exit = .ret ()) := by
  refine ⟨?_, ?_, ?_, ?_, ?_, ?_, ?_, ?_⟩
  · intro e he
    cases fn with
    | nil => rw [(EventBus.Subscribe_nil bus c hfree).1] at he; exact Exit.noConfusion he
    | bool x => exact (EventBus.Subscribe_ret_lock bus c _ hfree (by simp)).choose_spec.2.1
    | int x => exact (EventBus.Subscribe_ret_lock bus c _ hfree (by simp)).choose_spec.2.1
    | string x => exact (EventBus.Subscribe_ret_lock bus c _ hfree (by simp)).choose_spec.2.1
    | func f => exact (EventBus.Subscribe_ret_lock bus c _ hfree (by simp)).choose_spec.2.1
  · intro e he
    cases fn with
    | nil => rw [(EventBus.Subscribe_nil bus c hfree).2] at he; exact Exit.noConfusion he
    | bool x => exact (EventBus.Subscribe_ret_lock bus c _ hfree (by simp)).choose_spec.2.2.2
    | int x => exact (EventBus.Subscribe_ret_lock bus c _ hfree (by simp)).choose_spec.2.2.2
    | string x => exact (EventBus.Subscribe_ret_lock bus c _ hfree (by simp)).choose_spec.2.2.2
    | func f => exact (EventBus.Subscribe_ret_lock bus c _ hfree (by simp)).choose_spec.2.2.2
  · intro e _
    exact (EventBus.Unsubscribe_ret_lock bus c hfree).choose_spec.2
  · exact EventBus.Publish_ret_lock bus c args hfree
  · intro hnil
    cases fn with
    | nil => exact absurd rfl hnil
    | func f =>
      rw [EventBus.Subscribe_func bus c f hfree, EventBus.SubscribeOnce_func bus c f hfree]
      exact ⟨none, rfl, rfl, by simp⟩
    | bool x =>
      obtain ⟨t, -, -, e1, e2⟩ :=
        EventBus.Subscribe_non_func bus c (.bool x) hfree (by simp) (by simp)
      rw [e1, e2]
      exact ⟨_, rfl, rfl, by simp⟩
    | int x =>
      obtain ⟨t, -, -, e1, e2⟩ :=
        EventBus.Subscribe_non_func bus c (.int x) hfree (by simp) (by simp)
      rw [e1, e2]
      exact ⟨_, rfl, rfl, by simp⟩
    | string x =>
      obtain ⟨t, -, -, e1, e2⟩ :=
        EventBus.Subscribe_non_func bus c (.string x) hfree (by simp) (by simp)
      rw [e1, e2]
      exact ⟨_, rfl, rfl, by simp⟩
  · obtain ⟨e, he, -⟩ := EventBus.Unsubscribe_ret_lock bus c hfree
    exact ⟨e, he⟩
  · intro hc
    rw [EventBus.Publish_absent bus c args hfree hc]
  · intro h hc hacc hbody
    cases hf : bus.flagOnce c with
    | none =>
      have hcall := Call_of_accepts h (args.map ValueOf) hacc
      obtain ⟨hs, fl, lk, wg⟩ := bus
      simp_all [EventBus.Publish, EventBus.Lock, EventBus.Unlock, EventBus.reflectArgs_eq_map]
    | some b =>
      cases b with
      | false => rw [EventBus.Publish_persistent bus c h args hfree hc hf hbody hacc]
      | true => rw [EventBus.Publish_oneShot bus c h args hfree hc hf hbody hacc]

/-- Witness of C18: the invalid-handler return of `Subscribe` on the new bus. -/
theorem mutex_free_on_return_witness :
    EventBus.New.lock = false
    ∧ (EventBus.New.Subscribe "c" (Value.int 3)).exit = .ret (some (.notFunc Kind.Int))
    ∧ (EventBus.New.Subscribe "c" (Value.int 3)).bus.lock = false :=
  ⟨rfl, rfl,
    (mutex_free_on_return EventBus.New "c" (Value.int 3) [] rfl).1
      (some (.notFunc Kind.Int)) rfl⟩

/-- C19 (channel independence). For two distinct channel names `c` and `d`, compared as
strings, `Subscribe(c, fn)`, `SubscribeOnce(c, fn)`, `Unsubscribe(c)` and
`Publish(c, args)` leave the entry of `d` unchanged on every bus and however they end:
`handlers` and `flagOnce` have at `d` what they had before, so `d` is registered
afterwards exactly when it was before, with the same handler and the same flag. -/
theorem other_channel_unchanged (bus : EventBus) (c d : String) (fn : Value)
    (args : List Value) (hcd : c ≠ d) :
    ((bus.Subscribe c fn).bus.handlers d = bus.handlers d
      ∧ (bus.Subscribe c fn).bus.flagOnce d = bus.flagOnce d)
    ∧ ((bus.SubscribeOnce c fn).bus.handlers d = bus.handlers d
      ∧ (bus.SubscribeOnce c fn).bus.flagOnce d = bus.flagOnce d)
    ∧ ((bus.Unsubscribe c).bus.handlers d = bus.handlers d
      ∧ (bus.Unsubscribe c).bus.flagOnce d = bus.flagOnce d)
    ∧ ((bus.Publish c args).bus.handlers d = bus.handlers d
      ∧ (bus.Publish c args).bus.flagOnce d = bus.flagOnce d) := by
  obtain ⟨s1, s2, s3, s4⟩ := EventBus.Subscribe_frame bus c d fn hcd
  exact ⟨⟨s1, s2⟩, ⟨s3, s4⟩, EventBus.Unsubscribe_frame bus c d hcd,
    EventBus.Publish_frame bus c d args hcd⟩

/-- Witness of C19: the channel names `a` and `A` differ, and a one-shot `Publish` on `a`
leaves the entry of `A` in place. -/
theorem other_channel_unchanged_witness :
    "a" ≠ "A"
    ∧ ((((EventBus.New.Subscribe "A" (.func (Func.mk 1 [] none .returns false))).bus.SubscribeOnce
          "a" (.func (Func.mk 2 [] none .returns false))).bus.Publish "a" []).bus.handlers "A"
        = ((EventBus.New.Subscribe "A" (.func (Func.mk 1 [] none .returns false))).bus.SubscribeOnce
          "a" (.func (Func.mk 2 [] none .returns false))).bus.handlers "A") :=
  ⟨by decide,
    (other_channel_unchanged
      ((EventBus.New.Subscribe "A" (.func (Func.mk 1 [] none .returns false))).bus.SubscribeOnce
          "a" (.func (Func.mk 2 [] none .returns false))).bus
      "a" "A" Value.nil [] (by decide)).2.2.2.1⟩

/-! ## The one-shot flag along a sequence of calls -/

namespace EventBus

/-- A call that returns on a free bus leaves the mutex free. -/
theorem step_lock (bus b : EventBus) (op : Op) (hfree : bus.lock = false)
    (hstep : op.step bus = some b) : b.lock = false := by
  cases op with
  | subscribe d fn =>
    cases fn with
    | nil => simp [Op.step, (Subscribe_nil bus d hfree).1] at hstep
    | bool x =>
      obtain ⟨e, h1, h2, -, -⟩ := Subscribe_ret_lock bus d (.bool x) hfree (by simp)
      simp only [Op.step, h1, Option.some.injEq] at hstep
      rw [← hstep]; exact h2
    | int x =>
      obtain ⟨e, h1, h2, -, -⟩ := Subscribe_ret_lock bus d (.int x) hfree (by simp)
      simp only [Op.step, h1, Option.some.injEq] at hstep
      rw [← hstep]; exact h2
    | string x =>
      obtain ⟨e, h1, h2, -, -⟩ := Subscribe_ret_lock bus d (.string x) hfree (by simp)
      simp only [Op.step, h1, Option.some.injEq] at hstep
      rw [← hstep]; exact h2
    | func f =>
      obtain ⟨e, h1, h2, -, -⟩ := Subscribe_ret_lock bus d (.func f) hfree (by simp)
      simp only [Op.step, h1, Option.some.injEq] at hstep
      rw [← hstep]; exact h2
  | subscribeOnce d fn =>
    cases fn with
    | nil => simp [Op.step, (Subscribe_nil bus d hfree).2] at hstep
    | bool x =>
      obtain ⟨e, -, -, h1, h2⟩ := Subscribe_ret_lock bus d (.bool x) hfree (by simp)
      simp only [Op.step, h1, Option.some.injEq] at hstep
      rw [← hstep]; exact h2
    | int x =>
      obtain ⟨e, -, -, h1, h2⟩ := Subscribe_ret_lock bus d (.int x) hfree (by simp)
      simp only [Op.step, h1, Option.some.injEq] at hstep
      rw [← hstep]; exact h2
    | string x =>
      obtain ⟨e, -, -, h1, h2⟩ := Subscribe_ret_lock bus d (.string x) hfree (by simp)
      simp only [Op.step, h1, Option.some.injEq] at hstep
      rw [← hstep]; exact h2
    | func f =>
      obtain ⟨e, -, -, h1, h2⟩ := Subscribe_ret_lock bus d (.func f) hfree (by simp)
      simp only [Op.step, h1, Option.some.injEq] at hstep
      rw [← hstep]; exact h2
  | unsubscribe d =>
    obtain ⟨e, h1, h2⟩ := Unsubscribe_ret_lock bus d hfree
    simp only [Op.step, h1, Option.some.injEq] at hstep
    rw [← hstep]; exact h2
  | publish d args =>
    simp only [Op.step] at hstep
    cases he : (bus.Publish d args).exit with
    | ret u =>
      simp only [he, Option.some.injEq] at hstep
      rw [← hstep]; exact Publish_ret_lock bus d args hfree he
    | panic => simp [he] at hstep
    | block => simp [he] at hstep

/-- A call that returns on a free bus and makes no registration for `c` either leaves
`c` without a handler or leaves the handler and the flag of `c` as they were. -/
theorem step_entry_of_not_registers (bus b : EventBus) (op : Op) (c : String)
    (hfree : bus.lock = false) (hreg : op.registers c = none)
    (hstep : op.step bus = some b) :
    b.handlers c = none ∨ (b.handlers c = bus.handlers c ∧ b.flagOnce c = bus.flagOnce c) := by
  cases op with
  | subscribe d fn =>
    cases fn with
    | nil => simp [Op.step, (Subscribe_nil bus d hfree).1] at hstep
    | func f =>
      have hdc : d ≠ c := by
        intro e
        simp [Op.registers, e] at hreg
      simp only [Op.step, Subscribe_func bus d f hfree, Option.some.injEq] at hstep
      subst hstep
      exact Or.inr ⟨by simp [GoMap.set, Ne.symm hdc], by simp [GoMap.set, Ne.symm hdc]⟩
    | bool x =>
      obtain ⟨t, -, -, e, -⟩ := Subscribe_non_func bus d (.bool x) hfree (by simp) (by simp)
      simp only [Op.step, e, Option.some.injEq] at hstep
      subst hstep
      exact Or.inr ⟨rfl, rfl⟩
    | int x =>
      obtain ⟨t, -, -, e, -⟩ := Subscribe_non_func bus d (.int x) hfree (by simp) (by simp)
      simp only [Op.step, e, Option.some.injEq] at hstep
      subst hstep
      exact Or.inr ⟨rfl, rfl⟩
    | string x =>
      obtain ⟨t, -, -, e, -⟩ := Subscribe_non_func bus d (.string x) hfree (by simp) (by simp)
      simp only [Op.step, e, Option.some.injEq] at hstep
      subst hstep
      exact Or.inr ⟨rfl, rfl⟩
  | subscribeOnce d fn =>
    cases fn with
    | nil => simp [Op.step, (Subscribe_nil bus d hfree).2] at hstep
    | func f =>
      have hdc : d ≠ c := by
        intro e
        simp [Op.registers, e] at hreg
      simp only [Op.step, SubscribeOnce_func bus d f hfree, Option.some.injEq] at hstep
      subst hstep
      exact Or.inr ⟨by simp [GoMap.set, Ne.symm hdc], by simp [GoMap.set, Ne.symm hdc]⟩
    | bool x =>
      obtain ⟨t, -, -, -, e⟩ := Subscribe_non_func bus d (.bool x) hfree (by simp) (by simp)
      simp only [Op.step, e, Option.some.injEq] at hstep
      subst hstep
      exact Or.inr ⟨rfl, rfl⟩
    | int x =>
      obtain ⟨t, -, -, -, e⟩ := Subscribe_non_func bus d (.int x) hfree (by simp) (by simp)
      simp only [Op.step, e, Option.some.injEq] at hstep
      subst hstep
      exact Or.inr ⟨rfl, rfl⟩
    | string x =>
      obtain ⟨t, -, -, -, e⟩ := Subscribe_non_func bus d (.string x) hfree (by simp) (by simp)
      simp only [Op.step, e, Option.some.injEq] at hstep
      subst hstep
      exact Or.inr ⟨rfl, rfl⟩
  | unsubscribe d =>
    cases hd : bus.handlers d with
    | none =>
      simp only [Op.step, Unsubscribe_absent bus d hfree hd, Option.some.injEq] at hstep
      subst hstep
      exact Or.inr ⟨rfl, rfl⟩
    | some v =>
      simp only [Op.step, Unsubscribe_present bus d v hfree hd, Option.some.injEq] at hstep
      subst hstep
      by_cases hcd : c = d
      · exact Or.inl (by simp [GoMap.delete, hcd])
      · exact Or.inr ⟨by simp [GoMap.delete, hcd], rfl⟩
  | publish d args =>
    simp only [Op.step] at hstep
    cases he : (bus.Publish d args).exit with
    | ret u =>
      simp only [he, Option.some.injEq] at hstep
      subst hstep
      by_cases hcd : d = c
      · subst hcd
        exact Publish_same bus d args
      · exact Or.inr (Publish_frame bus d c args hcd)
    | panic => simp [he] at hstep
    | block => simp [he] at hstep

/-- A call that returns on a free bus and makes the registration `once` for `c` leaves
`c` with a handler and with the flag `once`. -/
theorem step_entry_of_registers (bus b : EventBus) (op : Op) (c : String) (once : Bool)
    (hfree : bus.lock = false) (hreg : op.registers c = some once)
    (hstep : op.step bus = some b) :
    (b.handlers c).isSome = true ∧ b.flagOnce c = some once := by
  cases op with
  | subscribe d fn =>
    cases fn with
    | func f =>
      by_cases hdc : d = c
      · subst hdc
        simp only [Op.registers, if_true, Option.some.injEq] at hreg
        simp only [Op.step, Subscribe_func bus d f hfree, Option.some.injEq] at hstep
        subst hstep
        subst hreg
        exact ⟨by simp [GoMap.set], by simp [GoMap.set]⟩
      · simp [Op.registers, hdc] at hreg
    | nil => simp [Op.registers] at hreg
    | bool x => simp [Op.registers] at hreg
    | int x => simp [Op.registers] at hreg
    | string x => simp [Op.registers] at hreg
  | subscribeOnce d fn =>
    cases fn with
    | func f =>
      by_cases hdc : d = c
      · subst hdc
        simp only [Op.registers, if_true, Option.some.injEq] at hreg
        simp only [Op.step, SubscribeOnce_func bus d f hfree, Option.some.injEq] at hstep
        subst hstep
        subst hreg
        exact ⟨by simp [GoMap.set], by simp [GoMap.set]⟩
      · simp [Op.registers, hdc] at hreg
    | nil => simp [Op.registers] at hreg
    | bool x => simp [Op.registers] at hreg
    | int x => simp [Op.registers] at hreg
    | string x => simp [Op.registers] at hreg
  | unsubscribe d => simp [Op.registers] at hreg
  | publish d args => simp [Op.registers] at hreg

/-- Along a sequence of calls that return, a channel with a handler has in `flagOnce` the
flag of its most recent registration. -/
theorem runOps_flag (ops : List Op) (bus b : EventBus) (last : String → Option Bool)
    (hfree : bus.lock = false)
    (hinv : ∀ c, (bus.handlers c).isSome = true →
      (last c).isSome = true ∧ bus.flagOnce c = last c)
    (hrun : runOps bus ops = some b) :
    ∀ c, (b.handlers c).isSome = true →
      (lastRegistrationFrom c (last c) ops).isSome = true
      ∧ b.flagOnce c = lastRegistrationFrom c (last c) ops := by
  induction ops generalizing bus last with
  | nil =>
    simp only [runOps, Option.some.injEq] at hrun
    subst hrun
    simpa [lastRegistrationFrom] using hinv
  | cons op ops ih =>
    simp only [runOps] at hrun
    cases hs : op.step bus with
    | none => simp [hs] at hrun
    | some b1 =>
      simp only [hs] at hrun
      have h1 := step_lock bus b1 op hfree hs
      have key := ih b1
        (fun c => match op.registers c with
          | some once => some once
          | none => last c) h1 ?_ hrun
      · intro c hc
        have := key c hc
        simpa [lastRegistrationFrom, List.foldl_cons] using this
      · intro c hc
        cases hreg : op.registers c with
        | none =>
          simp only [hreg]
          rcases step_entry_of_not_registers bus b1 op c hfree hreg hs with hn | ⟨e1, e2⟩
          · rw [hn] at hc
            exact absurd hc (by simp)
          · rw [e1] at hc
            rw [e2]
            exact hinv c hc
        | some once =>
          simp only [hreg]
          obtain ⟨-, e2⟩ := step_entry_of_registers bus b1 op c once hfree hreg hs
          exact ⟨rfl, e2⟩

end EventBus

namespace EventBus

/-- A sequence of calls that return, started on a free bus, ends on a free bus. -/
theorem runOps_lock (ops : List Op) (bus b : EventBus) (hfree : bus.lock = false)
    (hrun : runOps bus ops = some b) : b.lock = false := by
  induction ops generalizing bus with
  | nil =>
    simp only [runOps, Option.some.injEq] at hrun
    rw [← hrun]; exact hfree
  | cons op ops ih =>
    simp only [runOps] at hrun
    cases hs : op.step bus with
    | none => simp [hs] at hrun
    | some b1 =>
      simp only [hs] at hrun
      exact ih b1 (step_lock bus b1 op hfree hs) hrun

end EventBus

/-- C17 (flag consistency despite stale flags). In every bus reached from `New()` by a
sequence of `Subscribe`, `SubscribeOnce`, `Unsubscribe` and `Publish` calls that
return, a channel `c` present in `handlers` has a key in `flagOnce`, whose value is the
flag of the most recent successful registration for `c`: true exactly when that was a
`SubscribeOnce`. `Unsubscribe(c)` on such a bus deletes the entry of `handlers` and
leaves `flagOnce` as it is. -/
theorem flag_is_last_registration (ops : List Op) (bus : EventBus) (c : String)
    (hrun : runOps EventBus.New ops = some bus) (hc : (bus.handlers c).isSome = true) :
    (∃ once, bus.flagOnce c = some once ∧ lastRegistration c ops = some once)
    ∧ (bus.flagOnce c = some true ↔ lastRegistration c ops = some true)
    ∧ (bus.Unsubscribe c).bus.handlers c = none
    ∧ (bus.Unsubscribe c).bus.flagOnce = bus.flagOnce := by
  have hfree := EventBus.runOps_lock ops EventBus.New bus rfl hrun
  obtain ⟨h1, h2⟩ := EventBus.runOps_flag ops EventBus.New bus (fun _ => none) rfl
    (fun d hd => by simp [EventBus.New] at hd) hrun c hc
  have h2a : bus.flagOnce c = lastRegistration c ops := h2
  have h1a : (lastRegistration c ops).isSome = true := h1
  obtain ⟨v, hv⟩ := Option.isSome_iff_exists.mp hc
  refine ⟨?_, by rw [h2a], ?_, ?_⟩
  · obtain ⟨once, ho⟩ := Option.isSome_iff_exists.mp h1a
    exact ⟨once, by rw [h2a, ho], ho⟩
  · rw [EventBus.Unsubscribe_present bus c v hfree hv]
    exact EventBus.delete_same _ _
  · rw [EventBus.Unsubscribe_present bus c v hfree hv]

/-- Witness of C17: after `SubscribeOnce(c, h1)`, `Unsubscribe(c)`, `Subscribe(c, h2)` the
flag of `c` is false, the flag of the last registration. -/
theorem flag_is_last_registration_witness :
    (runOps EventBus.New
        [.subscribeOnce "c" (.func (Func.mk 1 [] none .returns false)), .unsubscribe "c",
          .subscribe "c" (.func (Func.mk 2 [] none .returns false))]
      = some (((EventBus.New.SubscribeOnce "c" (.func (Func.mk 1 [] none .returns false))).bus.Unsubscribe
          "c").bus.Subscribe "c" (.func (Func.mk 2 [] none .returns false))).bus
      ∧ ((((EventBus.New.SubscribeOnce "c" (.func (Func.mk 1 [] none .returns false))).bus.Unsubscribe
          "c").bus.Subscribe "c" (.func (Func.mk 2 [] none .returns false))).bus.handlers "c").isSome
          = true)
    ∧ ((((EventBus.New.SubscribeOnce "c" (.func (Func.mk 1 [] none .returns false))).bus.Unsubscribe
          "c").bus.Subscribe "c" (.func (Func.mk 2 [] none .returns false))).bus.flagOnce "c"
          = some true
        ↔ lastRegistration "c"
            [.subscribeOnce "c" (.func (Func.mk 1 [] none .returns false)), .unsubscribe "c",
              .subscribe "c" (.func (Func.mk 2 [] none .returns false))] = some true)
    ∧ (((EventBus.New.SubscribeOnce "c" (.func (Func.mk 1 [] none .returns false))).bus.Unsubscribe
          "c").bus.Subscribe "c" (.func (Func.mk 2 [] none .returns false))).bus.flagOnce "c"
          = some false :=
  ⟨⟨rfl, rfl⟩,
    (flag_is_last_registration
      [.subscribeOnce "c" (.func (Func.mk 1 [] none .returns false)), .unsubscribe "c",
        .subscribe "c" (.func (Func.mk 2 [] none .returns false))]
      (((EventBus.New.SubscribeOnce "c" (.func (Func.mk 1 [] none .returns false))).bus.Unsubscribe
          "c").bus.Subscribe "c" (.func (Func.mk 2 [] none .returns false))).bus "c" rfl rfl).2.1,
    rfl⟩

/-! ## Asynchronous publishes and the wait group -/

namespace EventBus

/-- A synchronous call that returns leaves the counter of the wait group as it was. -/
theorem step_wg (bus b : EventBus) (op : Op) (hstep : op.step bus = some b) :
    b.wg = bus.wg := by
  cases op with
  | subscribe d fn =>
    simp only [Op.step] at hstep
    cases he : (bus.Subscribe d fn).exit <;> simp only [he] at hstep
    · rw [← Option.some.inj hstep]; exact (wg_unchanged bus d fn []).1
    · exact Option.noConfusion hstep
    · exact Option.noConfusion hstep
  | subscribeOnce d fn =>
    simp only [Op.step] at hstep
    cases he : (bus.SubscribeOnce d fn).exit <;> simp only [he] at hstep
    · rw [← Option.some.inj hstep]; exact (wg_unchanged bus d fn []).2.1
    · exact Option.noConfusion hstep
    · exact Option.noConfusion hstep
  | unsubscribe d =>
    simp only [Op.step] at hstep
    cases he : (bus.Unsubscribe d).exit <;> simp only [he] at hstep
    · rw [← Option.some.inj hstep]; exact (wg_unchanged bus d Value.nil []).2.2.1
    · exact Option.noConfusion hstep
    · exact Option.noConfusion hstep
  | publish d args =>
    simp only [Op.step] at hstep
    cases he : (bus.Publish d args).exit <;> simp only [he] at hstep
    · rw [← Option.some.inj hstep]; exact (wg_unchanged bus d Value.nil args).2.2.2
    · exact Option.noConfusion hstep
    · exact Option.noConfusion hstep

/-- The goroutine of `PublishAsync` whose `Publish` does not block runs to its end: it
leaves the list of outstanding goroutines and takes one from the counter, whether its
`Publish` returned or panicked. -/
theorem asyncTask_done (w : World) (i : Nat) (t : Goroutine) (hget : w.tasks[i]? = some t)
    (hnb : (w.bus.Publish t.channel t.args).exit ≠ .block) :
    asyncTask w i
      = some ⟨{ (w.bus.Publish t.channel t.args).bus with wg := w.bus.wg - 1 },
          w.tasks.eraseIdx i, w.calls ++ (w.bus.Publish t.channel t.args).calls⟩ := by
  have hwg := (wg_unchanged w.bus t.channel Value.nil t.args).2.2.2
  simp only [asyncTask, hget]
  cases he : (w.bus.Publish t.channel t.args).exit with
  | ret u => simp only [hwg]
  | panic => simp only [hwg]
  | block => exact absurd he hnb

/-- A goroutine that ran to its end was outstanding, and it took one from the counter
and from the number of outstanding goroutines. -/
theorem asyncTask_some (w w1 : World) (i : Nat) (h : asyncTask w i = some w1) :
    i < w.tasks.length ∧ w1.bus.wg = w.bus.wg - 1 ∧ w1.tasks = w.tasks.eraseIdx i := by
  cases hget : w.tasks[i]? with
  | none => simp [asyncTask, hget] at h
  | some t =>
    have hi : i < w.tasks.length := by
      by_contra hcon
      rw [List.getElem?_eq_none (by omega)] at hget
      exact Option.noConfusion hget
    by_cases hnb : (w.bus.Publish t.channel t.args).exit = .block
    · simp [asyncTask, hget, hnb] at h
    · rw [asyncTask_done w i t hget hnb, Option.some.injEq] at h
      subst h
      exact ⟨hi, rfl, rfl⟩

end EventBus

/-- One event keeps the counter of the wait group equal to the number of outstanding
goroutines. -/
theorem World.step_balance (w w1 : World) (e : Event)
    (hbal : w.bus.wg = (w.tasks.length : Int)) (hstep : w.step e = some w1) :
    w1.bus.wg = (w1.tasks.length : Int) := by
  cases e with
  | publishAsync c args =>
    simp only [World.step, EventBus.PublishAsync, Option.some.injEq] at hstep
    subst hstep
    simp [hbal]
  | call op =>
    simp only [World.step] at hstep
    cases hs : op.step w.bus with
    | none => simp [hs] at hstep
    | some b =>
      simp only [hs, Option.some.injEq] at hstep
      subst hstep
      simpa [EventBus.step_wg w.bus b op hs] using hbal
  | finish i =>
    obtain ⟨hi, h1, h2⟩ := EventBus.asyncTask_some w w1 i hstep
    rw [h1, h2, List.length_eraseIdx_of_lt hi, hbal]
    omega

/-- A sequence of events keeps the counter of the wait group equal to the number of
outstanding goroutines. -/
theorem World.run_balance (evs : List Event) (w w1 : World)
    (hbal : w.bus.wg = (w.tasks.length : Int)) (hrun : w.run evs = some w1) :
    w1.bus.wg = (w1.tasks.length : Int) := by
  induction evs generalizing w with
  | nil =>
    simp only [World.run, Option.some.injEq] at hrun
    rw [← hrun]; exact hbal
  | cons e es ih =>
    simp only [World.run] at hrun
    cases hs : w.step e with
    | none => simp [hs] at hrun
    | some w2 =>
      simp only [hs] at hrun
      exact ih w2 (World.step_balance w w2 e hbal hs) hrun

/-- C15 (outstanding-async counter balance). In every world reached from a new bus by
`PublishAsync` calls, synchronous calls that return, and goroutines running to their
end, the counter of the wait group is the number of goroutines started by
`PublishAsync` that have not finished, and it is not negative. A `PublishAsync` adds
exactly one to the counter together with its goroutine, and a goroutine whose
`Publish` does not block takes exactly one from it when it ends, whether that `Publish`
returned after a call, was a no-op, or panicked. -/
theorem async_counter_balance (evs : List Event) (w : World)
    (hrun : World.run ⟨EventBus.New, [], []⟩ evs = some w) :
    w.bus.wg = (w.tasks.length : Int) ∧ 0 ≤ w.bus.wg
    ∧ (∀ c args, (EventBus.PublishAsync w c args).bus.wg = w.bus.wg + 1
        ∧ (EventBus.PublishAsync w c args).tasks = w.tasks ++ [⟨c, args⟩])
    ∧ (∀ i t, w.tasks[i]? = some t → (w.bus.Publish t.channel t.args).exit ≠ .block →
        ∃ w1, EventBus.asyncTask w i = some w1 ∧ w1.bus.wg = w.bus.wg - 1
          ∧ w1.tasks = w.tasks.eraseIdx i) := by
  have hbal := World.run_balance evs ⟨EventBus.New, [], []⟩ w rfl hrun
  refine ⟨hbal, by rw [hbal]; exact Int.natCast_nonneg _, fun c args => ⟨rfl, rfl⟩, ?_⟩
  intro i t hget hnb
  exact ⟨_, EventBus.asyncTask_done w i t hget hnb, rfl, rfl⟩

/-- Witness of C15: two `PublishAsync` on the new bus, one of whose goroutines has ended. -/
theorem async_counter_balance_witness :
    World.run ⟨EventBus.New, [], []⟩
        [.publishAsync "c" [], .publishAsync "d" [], .finish 0]
      = some ⟨{ EventBus.New with wg := 1 }, [⟨"d", []⟩], []⟩
    ∧ ({ EventBus.New with wg := 1 } : EventBus).wg = ((1 : Nat) : Int) :=
  ⟨rfl,
    (async_counter_balance [.publishAsync "c" [], .publishAsync "d" [], .finish 0]
      ⟨{ EventBus.New with wg := 1 }, [⟨"d", []⟩], []⟩ rfl).1⟩

namespace EventBus

/-- In a steady world a goroutine that runs to its end makes one invocation of `h` and
leaves the world steady. -/
theorem asyncTask_steady (c : String) (h : Func) (w w1 : World) (i : Nat)
    (hbody : h.body = Behaviour.returns) (hs : w.steady c h)
    (hstep : asyncTask w i = some w1) :
    w1.steady c h ∧ w1.calls.length = w.calls.length + 1
      ∧ w1.tasks.length + 1 = w.tasks.length := by
  obtain ⟨hfree, hc, hflag, hwg, htasks, hcalls⟩ := hs
  obtain ⟨hi, -, -⟩ := asyncTask_some w w1 i hstep
  have hget : w.tasks[i]? = some (w.tasks.get ⟨i, hi⟩) := List.getElem?_eq_getElem hi
  have hmem : w.tasks.get ⟨i, hi⟩ ∈ w.tasks := List.get_mem _ _ _
  obtain ⟨hch, hacc⟩ := htasks _ hmem
  have hpub := Publish_persistent w.bus c h (w.tasks.get ⟨i, hi⟩).args hfree hc hflag hbody hacc
  rw [← hch] at hpub
  have hdone := asyncTask_done w i _ hget (by rw [hpub]; exact fun e => Exit.noConfusion e)
  rw [hdone, Option.some.injEq, hpub] at hstep
  subst hstep
  refine ⟨⟨hfree, hc, hflag, ?_, ?_, ?_⟩, by simp, ?_⟩
  · show w.bus.wg - 1 = ((w.tasks.eraseIdx i).length : Int)
    rw [List.length_eraseIdx_of_lt hi, hwg]
    omega
  · intro t ht
    exact htasks t (List.mem_of_mem_eraseIdx ht)
  · intro j hj
    rcases List.mem_append.mp hj with hj | hj
    · exact hcalls j hj
    · rw [List.mem_singleton.mp hj]
  · show (w.tasks.eraseIdx i).length + 1 = w.tasks.length
    rw [List.length_eraseIdx_of_lt hi]
    omega

end EventBus

/-- A sequence of asynchronous publishes to `c` and of goroutine ends keeps a steady world
steady; the invocations made and the goroutines outstanding add up to those at the
start plus the number of `PublishAsync` calls. -/
theorem World.run_steady (c : String) (h : Func) (evs : List Event) (w w1 : World)
    (hbody : h.body = Behaviour.returns) (hs : w.steady c h)
    (hevs : ∀ e ∈ evs, e.asyncOn c h = true) (hrun : w.run evs = some w1) :
    w1.steady c h
      ∧ w1.calls.length + w1.tasks.length
          = w.calls.length + w.tasks.length + countAsync evs := by
  induction evs generalizing w with
  | nil =>
    simp only [World.run, Option.some.injEq] at hrun
    subst hrun
    exact ⟨hs, by simp [countAsync]⟩
  | cons e es ih =>
    simp only [World.run] at hrun
    cases hst : w.step e with
    | none => simp [hst] at hrun
    | some w2 =>
      simp only [hst] at hrun
      have he := hevs e (List.mem_cons_self _ _)
      have hes : ∀ e1 ∈ es, e1.asyncOn c h = true :=
        fun e1 h1 => hevs e1 (List.mem_cons_of_mem _ h1)
      cases e with
      | call op => simp [Event.asyncOn] at he
      | publishAsync d args =>
        simp only [Event.asyncOn, Bool.and_eq_true, beq_iff_eq] at he
        obtain ⟨hd, hacc⟩ := he
        subst hd
        simp only [World.step, EventBus.PublishAsync, Option.some.injEq] at hst
        subst hst
        obtain ⟨hfree, hc, hflag, hwg, htasks, hcalls⟩ := hs
        have hs2 : World.steady d h
            ⟨{ w.bus with wg := w.bus.wg + 1 }, w.tasks ++ [⟨d, args⟩], w.calls⟩ := by
          refine ⟨hfree, hc, hflag, ?_, ?_, hcalls⟩
          · show w.bus.wg + 1 = ((w.tasks ++ [Goroutine.mk d args]).length : Int)
            simp [hwg]
          · intro t ht
            rcases List.mem_append.mp ht with ht | ht
            · exact htasks t ht
            · rw [List.mem_singleton.mp ht]
              exact ⟨rfl, hacc⟩
        obtain ⟨k1, k2⟩ := ih _ hs2 hes hrun
        refine ⟨k1, ?_⟩
        rw [k2]
        simp only [List.length_append, List.length_singleton, countAsync]
        omega
      | finish i =>
        simp only [World.step] at hst
        obtain ⟨s2, c2, t2⟩ := EventBus.asyncTask_steady c h w w2 i hbody hs hst
        obtain ⟨k1, k2⟩ := ih w2 s2 hes hrun
        refine ⟨k1, ?_⟩
        rw [k2]
        simp only [countAsync]
        omega

/-- In a steady world the outstanding goroutines can all run to their end, one after the
other, after which the counter of the wait group is zero. -/
theorem World.drain_steady (c : String) (h : Func) (n : Nat) (w : World)
    (hbody : h.body = Behaviour.returns) (hs : w.steady c h) (hn : w.tasks.length = n) :
    ∃ w1, w.run (List.replicate n (Event.finish 0)) = some w1 ∧ w1.steady c h
      ∧ w1.bus.wg = 0 ∧ w1.calls.length = w.calls.length + n := by
  induction n generalizing w with
  | zero =>
    refine ⟨w, rfl, hs, ?_, rfl⟩
    rw [hs.2.2.2.1, hn]
    rfl
  | succ n ih =>
    have hpos : 0 < w.tasks.length := by omega
    have hget : w.tasks[0]? = some (w.tasks.get ⟨0, hpos⟩) := List.getElem?_eq_getElem hpos
    obtain ⟨hch, hacc⟩ := hs.2.2.2.2.1 _ (List.get_mem _ _ _)
    have hpub := EventBus.Publish_persistent w.bus c h (w.tasks.get ⟨0, hpos⟩).args
      hs.1 hs.2.1 hs.2.2.1 hbody hacc
    rw [← hch] at hpub
    have hdone := EventBus.asyncTask_done w 0 _ hget
      (by rw [hpub]; exact fun e => Exit.noConfusion e)
    obtain ⟨s2, c2, t2⟩ := EventBus.asyncTask_steady c h w _ 0 hbody hs hdone
    obtain ⟨w1, r1, s1, z1, l1⟩ := ih _ s2 (by omega)
    refine ⟨w1, ?_, s1, z1, ?_⟩
    · simp only [List.replicate_succ, World.run, World.step, hdone]
      exact r1
    · rw [l1, c2]
      omega

/-- C14 (`WaitAsync` drains all outstanding work). Start from a bus with a free mutex and
a zero counter on which `c` holds a persistent handler `h` that returns, and let the
caller make `PublishAsync(c, args)` calls, with arguments that `h` accepts, while the
goroutines run to their end in any order. In every world so reached, if `WaitAsync`
returns then `h` has been invoked exactly once for each `PublishAsync` call and nothing
else has been invoked; and `WaitAsync` does return once the outstanding goroutines have
run, which they all can. -/
theorem waitAsync_drains_all_publishes (bus : EventBus) (c : String) (h : Func)
    (evs : List Event) (w : World) (hfree : bus.lock = false) (hwg : bus.wg = 0)
    (hc : bus.handlers c = some (.func h)) (hflag : bus.flagOnce c = some false)
    (hbody : h.body = Behaviour.returns) (hevs : ∀ e ∈ evs, e.asyncOn c h = true)
    (hrun : World.run ⟨bus, [], []⟩ evs = some w) :
    (∀ w1, EventBus.WaitAsync w = some w1 →
        w1.calls.length = countAsync evs ∧ ∀ i ∈ w1.calls, i.fn = h)
    ∧ ∃ w1, w.run (List.replicate w.tasks.length (Event.finish 0)) = some w1
        ∧ EventBus.WaitAsync w1 = some w1
        ∧ w1.calls.length = countAsync evs ∧ ∀ i ∈ w1.calls, i.fn = h := by
  have hs0 : World.steady c h ⟨bus, [], []⟩ :=
    ⟨hfree, hc, hflag, by simp [hwg], by simp, by simp⟩
  obtain ⟨hs, hcount⟩ := World.run_steady c h evs _ w hbody hs0 hevs hrun
  simp only [List.length_nil, Nat.zero_add] at hcount
  refine ⟨?_, ?_⟩
  · intro w1 hw
    simp only [EventBus.WaitAsync] at hw
    split at hw
    · rename_i hz
      rw [← Option.some.inj hw]
      have hlen : w.tasks.length = 0 := by
        have := hs.2.2.2.1
        rw [hz] at this
        exact_mod_cast this.symm
      exact ⟨by omega, hs.2.2.2.2.2⟩
    · exact Option.noConfusion hw
  · obtain ⟨w1, r1, s1, z1, l1⟩ := World.drain_steady c h w.tasks.length w hbody hs rfl
    refine ⟨w1, r1, by simp [EventBus.WaitAsync, z1], by omega, s1.2.2.2.2.2⟩

/-- Witness of C14: two `PublishAsync` to a handler of one `int`, whose goroutines end in
the opposite order; `WaitAsync` then returns with two invocations made. -/
theorem waitAsync_drains_all_publishes_witness :
    (World.run ⟨(EventBus.New.Subscribe "c" (.func (Func.mk 1 [.int] none .returns false))).bus, [], []⟩
        [.publishAsync "c" [.int 1], .publishAsync "c" [.int 2], .finish 1, .finish 0]
      = some ⟨(EventBus.New.Subscribe "c" (.func (Func.mk 1 [.int] none .returns false))).bus, [],
          [⟨Func.mk 1 [.int] none .returns false, [.int 2]⟩,
            ⟨Func.mk 1 [.int] none .returns false, [.int 1]⟩]⟩)
    ∧ (World.mk (EventBus.New.Subscribe "c" (.func (Func.mk 1 [.int] none .returns false))).bus []
          [⟨Func.mk 1 [.int] none .returns false, [.int 2]⟩,
            ⟨Func.mk 1 [.int] none .returns false, [.int 1]⟩]).calls.length
        = countAsync
            [.publishAsync "c" [.int 1], .publishAsync "c" [.int 2], .finish 1, .finish 0] :=
  ⟨rfl,
    ((waitAsync_drains_all_publishes
      (EventBus.New.Subscribe "c" (.func (Func.mk 1 [.int] none .returns false))).bus "c"
      (Func.mk 1 [.int] none .returns false)
      [.publishAsync "c" [.int 1], .publishAsync "c" [.int 2], .finish 1, .finish 0]
      ⟨(EventBus.New.Subscribe "c" (.func (Func.mk 1 [.int] none .returns false))).bus, [],
        [⟨Func.mk 1 [.int] none .returns false, [.int 2]⟩,
          ⟨Func.mk 1 [.int] none .returns false, [.int 1]⟩]⟩
      rfl rfl rfl rfl rfl (by decide) rfl).1 _ rfl).1⟩
